import Mathlib

/-!
Verification of the CMake Test Explorer adapter core.

This file gives a shallow embedding, in Lean 4, of the pure content of the
adapter's core operations:

* the manifest loader `loadCmakeTests` (src/cmake-runner.ts),
* the suite-tree builder inside `loadTestSuite` (src/cmake-adapter.ts),
* the test-index resolver `getTestIndexes` (src/cmake-adapter.ts),
* the run/cancel state machine of the `CmakeAdapter` class (src/cmake-adapter.ts),
* the per-test output buffering of the `runTests` event handler (src/cmake-adapter.ts),
* the configuration substitution loop `configGetStr`/`substituteString`,
* the debug-environment merge helpers (`mergeVariablesIntoDebugEnv` and the
  lldb object-spread merge), and
* the parallelism resolver `getParallelJobs`.

Effectful boundaries (the filesystem, process spawning, JSON parsing, VS Code
configuration reads) are abstracted into explicit input records; JavaScript
strings are modelled as Lean `String`/`List Char`, JavaScript sparse arrays and
objects as association lists, and JavaScript numbers (where only integral
behaviour matters) as `Int`.
-/

namespace CmakeTestExplorer

/-! ## Data model (src/interfaces): one manifest row -/

/-- One `{name, value}` pair of a test descriptor's `properties` list. -/
structure KeyValue where
  name : String
  value : String
deriving DecidableEq, Repr

/-- One row of the CTest JSON manifest (`CmakeTestInfo` interface): `name` is
the canonical test ID, `config` the optional build configuration, `command`
the argv array, `properties` the ordered property list. -/
structure CmakeTestInfo where
  name : String
  config : Option String := none
  command : List String := []
  properties : List KeyValue := []
deriving DecidableEq, Repr

/-! ## Manifest loader (src/cmake-runner.ts, `loadCmakeTests`) -/

/-- The result of `JSON.parse` on the captured stdout: the object shape
`{ tests: [...] }` produced by `ctest --show-only=json-v1`. -/
structure CtestShowOnlyResult where
  tests : List CmakeTestInfo
deriving DecidableEq, Repr

/-- Abstraction of the effectful environment observed by one `loadCmakeTests`
call: whether `fs.statSync(cwd)` succeeds, whether it reports a directory,
the spawned process id (JavaScript treats pid `0`/`undefined` as falsy, i.e.
spawn failure), the outcome of `JSON.parse` on the accumulated stdout
(`none` models a parse exception), and the process exit code (captured by the
`exit` event but never examined by the source). -/
structure LoadEnv where
  statOk : Bool
  isDirectory : Bool
  pid : Nat
  parsedStdout : Option CtestShowOnlyResult
  exitCode : Int
deriving DecidableEq, Repr

/-- The distinct rejection causes of `loadCmakeTests`, in source order. -/
inductive LoadError where
  /-- `fs.statSync(cwd)` threw: the working directory path does not exist. -/
  | statFailed (cwd : String)
  /-- The path exists but `isDirectory()` is false (source line 62-64). -/
  | notADirectory (cwd : String)
  /-- `child_process.spawn` produced no pid (source line 79-82). -/
  | cannotSpawn (ctestPath : String)
  /-- `JSON.parse` threw on the captured stdout (source line 97-103). -/
  | parseError (message : String)
deriving DecidableEq, Repr

/-- The literal message attached to the JSON-parse rejection (source line 100),
naming the likely root cause: a CTest older than 3.14 without
`--show-only=json-v1` support.  The source wraps the option name in single
quotation marks, elided here. -/
def parseErrorMessage : String :=
  "Error parsing test list - Make sure to use a version of CTest >= 3.14 that supports option --show-only=json-v1"

/-- Shallow embedding of `loadCmakeTests` (src/cmake-runner.ts lines 52-109):
check that `cwd` is an existing directory, spawn ctest, accumulate stdout, and
on process exit parse it as JSON and resolve with `data.tests`; any failure of
those checks rejects.  The exit code is received by the `exit` handler but
never inspected. -/
def loadCmakeTests (ctestPath : String) (cwd : String) (env : LoadEnv) :
    Except LoadError (List CmakeTestInfo) :=
  if ¬ env.statOk then .error (.statFailed cwd)
  else if ¬ env.isDirectory then .error (.notADirectory cwd)
  else if env.pid = 0 then .error (.cannotSpawn ctestPath)
  else
    match env.parsedStdout with
    | some data => .ok data.tests
    | none => .error (.parseError parseErrorMessage)

/-! ## Parallelism resolver (src/cmake-adapter.ts, `getParallelJobs`) -/

/-- The configuration values read by `getParallelJobs`: the extension's own
`parallelJobs` setting, the CMake Tools settings `ctest.parallelJobs` and
`parallelJobs`, and `os.cpus().length`.  `none` models an absent setting. -/
structure ParallelJobsConfig where
  explorerParallelJobs : Option Int
  ctestParallelJobs : Option Int
  cmakeParallelJobs : Option Int
  cpuCount : Nat
deriving DecidableEq, Repr

/-- JavaScript truthiness filter for an optional numeric setting: `undefined`
and `0` are falsy (`if (!parallelJobs)` in the source). -/
def jsTruthyNum : Option Int → Option Int
  | none => none
  | some n => if n = 0 then none else some n

/-- Shallow embedding of `getParallelJobs` (src/cmake-adapter.ts lines
563-585): take the first truthy value among the extension setting, the two
CMake Tools settings, and the host CPU count, then clamp values below 1 up
to 1. -/
def getParallelJobs (c : ParallelJobsConfig) : Int :=
  let parallelJobs :=
    match jsTruthyNum c.explorerParallelJobs with
    | some n => n
    | none =>
      match jsTruthyNum c.ctestParallelJobs with
      | some n => n
      | none =>
        match jsTruthyNum c.cmakeParallelJobs with
        | some n => n
        | none => (c.cpuCount : Int)
  if parallelJobs < 1 then 1 else parallelJobs

/-! ## String scanning primitives

JavaScript string primitives (`indexOf`, `replace`, `split`, `startsWith`,
`endsWith`) are modelled on `List Char` so that they are executable and
structurally recursive. -/

/-- Split off the first occurrence of `key`: `splitFirst key s = some (p, q)`
means `s = p ++ key ++ q` with `p` shortest (leftmost occurrence), mirroring
`s.indexOf(key)`; `none` means no occurrence.  An empty `key` matches at
position 0, as in JavaScript. -/
def splitFirst (key : List Char) : List Char → Option (List Char × List Char)
  | [] => if key.isEmpty then some ([], []) else none
  | c :: cs =>
    if key.isPrefixOf (c :: cs) then some ([], (c :: cs).drop key.length)
    else
      match splitFirst key cs with
      | none => none
      | some (p, q) => some (c :: p, q)

/-- `str.indexOf(key) > -1` of JavaScript. -/
def occursIn (key s : List Char) : Bool := (splitFirst key s).isSome

/-- `str.replace(key, value)` of JavaScript with a string pattern: replace the
leftmost occurrence of `key` (replacement-pattern escapes do not arise for the
values this code substitutes). -/
def replaceFirst (key value s : List Char) : List Char :=
  match splitFirst key s with
  | none => s
  | some (p, q) => p ++ value ++ q

/-- Fuel-driven core of `str.split(sep)`: peel leading chunks off at each
occurrence of `sep`.  The fuel only serves Lean's termination checker; it is
chosen large enough that it is never exhausted for a non-empty separator. -/
def jsSplitFuel : Nat → List Char → List Char → List (List Char)
  | 0, _, s => [s]
  | n + 1, sep, s =>
    match splitFirst sep s with
    | none => [s]
    | some (p, q) => p :: jsSplitFuel n sep q

/-- `str.split(sep)` of JavaScript for a non-empty string separator. -/
def jsSplit (sep s : List Char) : List (List Char) := jsSplitFuel (s.length + 1) sep s

/-- `str.startsWith(p)` of JavaScript. -/
def startsWithStr (s p : String) : Bool := p.toList.isPrefixOf s.toList

/-- `str.endsWith(p)` of JavaScript. -/
def endsWithStr (s p : String) : Bool := p.toList.isSuffixOf s.toList

/-! ## Suite builder (src/cmake-adapter.ts, `loadTestSuite` lines 228-283) -/

/-- Special ID value for the root suite (source line 36). -/
def ROOT_SUITE_ID : String := "*"

/-- Suffix for suite IDs, used to distinguish suite IDs from test IDs
(source line 39). -/
def SUITE_SUFFIX : String := "*"

/-- A node of the Test Explorer tree: a suite (`TestSuiteInfo`) with ID,
label, ordered children and optional tooltip, or a leaf test (`TestInfo`)
carrying its ID and label (`file`/`line`/`description` metadata is not
involved in any verified claim and is elided). -/
inductive SuiteItem where
  | suite (id : String) (label : String) (children : List SuiteItem) (tooltip : Option String)
  | test (id : String) (label : String)
deriving Repr

/-- The `find` predicate of source line 253-256:
`item.type == 'suite' && item.id === currentId + SUITE_SUFFIX`. -/
def isSuiteWithId (targetId : String) : SuiteItem → Bool
  | .suite sid _ _ _ => sid = targetId
  | .test _ _ => false

/-- Children of a suite node (a test has none). -/
def childrenOf : SuiteItem → List SuiteItem
  | .suite _ _ cs _ => cs
  | .test _ _ => []

/-- Replace the children list of a suite node; the in-place mutation
`suite.children.push(...)` of the source acts on the found child object. -/
def setChildren : SuiteItem → List SuiteItem → SuiteItem
  | .suite sid lbl _ tip, newChildren => .suite sid lbl newChildren tip
  | t, _ => t

/-- Replace the first item satisfying `p`; models the in-place mutation of the
child found by `suite.children.find` (IDs are unique among siblings, so at
most one item matches). -/
def replaceFirstMatching (p : SuiteItem → Bool) (newItem : SuiteItem) :
    List SuiteItem → List SuiteItem
  | [] => []
  | c :: cs => if p c then newItem :: cs else c :: replaceFirstMatching p newItem cs

/-- The suite tooltip of source lines 263-266:
`currentId.substr(0, currentId.length - suiteDelimiter.length)`. -/
def tooltipOf (currentId delim : String) : String :=
  String.mk (currentId.toList.take (currentId.toList.length - delim.toList.length))

/-- One iteration of the outer `for` loop of source lines 246-281: walk the
path segments of one test name from the root children list, reusing the suite
whose ID is the accumulated path plus `SUITE_SUFFIX` when present and creating
it (appended at the end of the sibling list) otherwise, then append the leaf
test to the final suite's children.  `tid` is the full original test name,
`lbl` the last path segment. -/
def insertTest (delim tid lbl : String) : List String → String → List SuiteItem → List SuiteItem
  | [], _, children => children ++ [SuiteItem.test tid lbl]
  | name :: rest, currentId, children =>
    match children.find? (isSuiteWithId (currentId ++ name ++ delim ++ SUITE_SUFFIX)) with
    | some childSuite =>
      replaceFirstMatching (isSuiteWithId (currentId ++ name ++ delim ++ SUITE_SUFFIX))
        (setChildren childSuite
          (insertTest delim tid lbl rest (currentId ++ name ++ delim) (childrenOf childSuite)))
        children
    | none =>
      children ++ [SuiteItem.suite (currentId ++ name ++ delim ++ SUITE_SUFFIX) name
        (insertTest delim tid lbl rest (currentId ++ name ++ delim) [])
        (some (tooltipOf (currentId ++ name ++ delim) delim))]

/-- `test.name.split(suiteDelimiter)` without its last element: the nested
suite levels of one test (source lines 247-248). -/
def nameSegs (delim name : String) : List String :=
  ((jsSplit delim.toList name.toList).dropLast).map String.mk

/-- `path.pop() || 'undefined'` of source line 248: the leaf label is the last
path segment, or the string `undefined` when that segment is empty. -/
def testLabelOf (delim name : String) : String :=
  match (jsSplit delim.toList name.toList).getLast? with
  | some last => if last.isEmpty then "undefined" else String.mk last
  | none => "undefined"

/-- The children of the root suite produced by `loadTestSuite` (source lines
234-283): a flat list of tests when the delimiter is empty (falsy), otherwise
the hierarchical tree built by splitting each name. -/
def loadTestSuiteChildren (delim : String) (names : List String) : List SuiteItem :=
  if delim = "" then names.map (fun n => SuiteItem.test n n)
  else
    names.foldl
      (fun acc n => insertTest delim n (testLabelOf delim n) (nameSegs delim n) "" acc) []

/-- The root suite produced by `loadTestSuite`: reserved sentinel ID, label
`CMake`, children as above. -/
def loadTestSuite (delim : String) (names : List String) : SuiteItem :=
  SuiteItem.suite ROOT_SUITE_ID "CMake" (loadTestSuiteChildren delim names) none

/-- Leaf test IDs of a forest, in tree (depth-first, sibling) order. -/
def collectLeavesList : List SuiteItem → List String
  | [] => []
  | .test tid _ :: cs => tid :: collectLeavesList cs
  | .suite _ _ children _ :: cs => collectLeavesList children ++ collectLeavesList cs

/-- Leaf test IDs below one node, in tree order. -/
def collectLeaves : SuiteItem → List String
  | .test tid _ => [tid]
  | .suite _ _ children _ => collectLeavesList children

/-- Suite IDs of a forest (all nesting levels), in tree order. -/
def collectSuiteIdsList : List SuiteItem → List String
  | [] => []
  | .test _ _ :: cs => collectSuiteIdsList cs
  | .suite sid _ children _ :: cs => sid :: (collectSuiteIdsList children ++ collectSuiteIdsList cs)

/-! ## Test index resolution (src/cmake-adapter.ts, `getTestIndexes` lines 374-401) -/

/-- `this.cmakeTests.findIndex((test) => test.name === id) + 1`: the 1-based
position of the first descriptor with the given name, or 0 when none
matches (JavaScript `findIndex` returns -1 and the source adds 1). -/
def jsFindIndexName (tests : List CmakeTestInfo) (testId : String) : Nat :=
  match tests.findIdx? (fun t => t.name = testId) with
  | some i => i + 1
  | none => 0

/-- `id.substr(0, id.length - SUITE_SUFFIX.length)`: drop the one-character
reserved suffix. -/
def dropSuiteSuffix (s : String) : String := String.mk s.toList.dropLast

/-- The guard `suiteDelimiter && id.endsWith(suiteDelimiter + SUITE_SUFFIX)`
of source line 384 (an empty delimiter string is falsy). -/
def isSuiteRunId (suiteDelimiter : String) (s : String) : Bool :=
  (suiteDelimiter != "") && endsWithStr s (suiteDelimiter ++ SUITE_SUFFIX)

/-- Shallow embedding of `getTestIndexes`: an empty request selects
everything; otherwise each requested ID ending in delimiter-plus-suffix is
expanded to all descriptor names sharing its prefix, the rest are kept as
single test IDs, and every collected ID is mapped to `findIndex + 1` over the
loaded descriptor list (so an unknown ID contributes 0). -/
def getTestIndexes (cmakeTests : List CmakeTestInfo) (suiteDelimiter : String)
    (ids : List String) : List Nat :=
  if ids.length = 0 then []
  else
    let allTests := cmakeTests.map (fun t => t.name)
    let tests := ids.foldl
      (fun tests i =>
        if isSuiteRunId suiteDelimiter i then
          tests ++ allTests.filter (fun t => startsWithStr t (dropSuiteSuffix i))
        else tests ++ [i])
      []
    tests.map (jsFindIndexName cmakeTests)

/-! ## Run event handling (src/cmake-adapter.ts, `runTests` lines 330-362) -/

/-- The runner's per-test lifecycle events, as consumed by the `runTests`
event handler.  The `CmakeTestEvent` union itself is declared in the runner
module; the constructors here carry exactly the fields the handler reads
(`event.name` on start, `event.index`/`event.line` on output,
`event.index`/`event.name`/`event.success` on end, which Lean cannot name
`end`). -/
inductive CmakeTestEvent where
  | start (name : String)
  | output (index : Nat) (line : String)
  | endTest (index : Nat) (name : String) (success : Bool)
deriving DecidableEq, Repr

/-- The `TestEvent`s fired on the test-states emitter: state `running` on
start, and a terminal passed/failed state with an optional message on end. -/
inductive TestStateEvent where
  | running (test : String)
  | terminal (test : String) (success : Bool) (message : Option String)
deriving DecidableEq, Repr

/-- Handler state: the sparse array `outputs: string[][]` keyed by positional
index (a hole is `none`; `!outputs[i]` is true exactly on holes, since a
buffer is only created non-empty) and the fired test events in order. -/
structure RunBuffers where
  outputs : Nat → Option (List String)
  fired : List TestStateEvent

/-- `if (!outputs[event.index]) outputs[event.index] = [];
outputs[event.index].push(event.line)` (source lines 344-347). -/
def pushOutput (outputs : Nat → Option (List String)) (i : Nat) (line : String) :
    Nat → Option (List String) :=
  fun j => if j = i then some ((outputs i).getD [] ++ [line]) else outputs j

/-- One step of the `runTests` event handler (source lines 334-360): `start`
fires a running event, `output` buffers the line under its index, `end` fires
the terminal event whose message is the line buffer of that index joined with
line breaks, or absent when the buffer was never created. -/
def handleEvent (st : RunBuffers) : CmakeTestEvent → RunBuffers
  | .start name => { st with fired := st.fired ++ [.running name] }
  | .output i line => { st with outputs := pushOutput st.outputs i line }
  | .endTest i name success =>
    { st with
      fired := st.fired ++
        [.terminal name success ((st.outputs i).map (String.intercalate "\n"))] }

/-- The handler folded over a whole event stream, starting from empty
buffers and no fired events. -/
def processEvents (es : List CmakeTestEvent) : RunBuffers :=
  es.foldl handleEvent ⟨fun _ => none, []⟩

/-- The output lines attributed to index `i` by a stream, in order. -/
def outputLinesFor (i : Nat) (es : List CmakeTestEvent) : List String :=
  es.filterMap (fun e =>
    match e with
    | .output j line => if j = i then some line else none
    | _ => none)

/-- The buffer contents produced by appending lines `ls` to a buffer slot
that held `prev` (`none` = hole). -/
def combineBuf : Option (List String) → List String → Option (List String)
  | none, [] => none
  | none, ls => some ls
  | some prev, ls => some (prev ++ ls)

/-! ## Configuration substitution (src/cmake-adapter.ts, `configGetStr` /
`substituteString`) -/

/-- The inner loop of `substituteString` for one map entry:
`while (str.indexOf(key) > -1) { str = str.replace(key, value); }`.
The fuel argument exists only for Lean's termination; the verified use cases
consume at least one dollar character per iteration, so the fuel below is
never exhausted there. -/
def replaceLoopFuel : Nat → List Char → List Char → List Char → List Char
  | 0, s, _, _ => s
  | n + 1, s, key, value =>
    if occursIn key s then replaceLoopFuel n (replaceFirst key value s) key value
    else s

/-- One key's replacement loop with enough fuel for one dollar-consuming
iteration per `$` in the string. -/
def substituteVar (s key value : List Char) : List Char :=
  replaceLoopFuel (s.count '$' + 1) s key value

/-- `substituteString(str, varMap)` (also inlined in `configGetStr`): run the
per-key replacement loop for every map entry in insertion order. -/
def substituteString (str : String) (varMap : List (String × String)) : String :=
  String.mk (varMap.foldl (fun s kv => substituteVar s kv.1.toList kv.2.toList) str.toList)

/-! ## Debug environment merging (src/cmake-adapter.ts closing helpers) -/

/-- One `{name, value}` entry of a cpp-family debug configuration's
`environment` array. -/
structure DebugEnvEntry where
  name : String
  value : String
deriving DecidableEq, Repr

/-- `getVariableIndex`: index of a variable in a debug environment array by
`findIndex`, comparing names case-insensitively (via `toUpperCase`) on win32
and exactly elsewhere; `none` models the -1 result. -/
def getVariableIndex (win32 : Bool) (varname : String)
    (environment : List DebugEnvEntry) : Option Nat :=
  if win32 then
    environment.findIdx? (fun e => e.name.toUpper = varname.toUpper)
  else
    environment.findIdx? (fun e => e.name = varname)

/-- `mergeVariablesIntoDebugEnv`: starting from a copy of the environment,
each variable (in object-key order) overwrites the entry at the index found
by `getVariableIndex` in the ORIGINAL environment, or is appended at the end
when absent. -/
def mergeVariablesIntoDebugEnv (win32 : Bool) (environment : List DebugEnvEntry)
    (vars : List (String × String)) : List DebugEnvEntry :=
  vars.foldl
    (fun result v =>
      match getVariableIndex win32 v.1 environment with
      | none => result ++ [⟨v.1, v.2⟩]
      | some i => result.set i ⟨v.1, v.2⟩)
    environment

/-- JavaScript object spread `{...a, ...b}` on string-keyed objects modelled
as ordered key-value lists: the keys of `a` in order, with values overridden
by `b` where present, followed by the keys of `b` absent from `a`, in
order. -/
def spreadObj (a b : List (String × String)) : List (String × String) :=
  a.map (fun e => (e.1, (b.lookup e.1).getD e.2)) ++
    b.filter (fun e => (a.lookup e.1).isNone)

/-- The environment of `mergeLldbConfigs`:
`{ ...config.env, ...extraCtestEnvVars, ...env }` (base, then the extra
configured variables, then the test's own variables). -/
def mergeLldbEnv (baseEnv extra testEnv : List (String × String)) :
    List (String × String) :=
  spreadObj (spreadObj baseEnv extra) testEnv

/-- `mergeEnvironments` of `debugTest`: merge the extra configured variables,
then the test-specific variables, into the base configuration's environment
array. -/
def mergeEnvironments (win32 : Bool) (environment : List DebugEnvEntry)
    (extra testEnv : List (String × String)) : List DebugEnvEntry :=
  mergeVariablesIntoDebugEnv win32 (mergeVariablesIntoDebugEnv win32 environment extra) testEnv

/-- The value a debugger resolves for a variable from an environment array:
the value of the first entry with that exact name. -/
def lookupDebugEnv (varname : String) (environment : List DebugEnvEntry) : Option String :=
  (environment.find? (fun e => e.name = varname)).map (fun e => e.value)

/-! ## Adapter lifecycle (src/cmake-adapter.ts, `load`/`run`/`cancel`/`runTests`)

The adapter is single-threaded JavaScript: each `async` method body runs
synchronously up to its first `await`, and only at an `await` can another
call (`cancel()`, a promise resumption) interleave.  The embedding therefore
cuts `load`/`run` into their synchronous segments.  `run` (lines 121-163)
guards on `state !== 'idle'`, sets `state = 'running'`, fires the run-started
event, and calls `runTests` (lines 299-366), whose body up to its first
`await this.getConfigStrings(...)` — including the `state === 'cancelled'`
check at lines 300-304 — still belongs to the same synchronous segment.
The later suspension points are the config await and the
`executeCmakeTestProcess` await; `cancel` (lines 177-185) can run only at
those points. -/

inductive AdapterState where
  | idle
  | loading
  | running
  | cancelled
deriving DecidableEq, Repr

/-- The externally observable emitter firings of the lifecycle methods
(suite/test-level events are modelled separately for C7). -/
inductive AdapterEvent where
  | loadStarted
  | loadFinished
  | runStarted (tests : List String)
  | retired (tests : List String)
  | processKilled
  | runFinished
deriving DecidableEq, Repr

/-- Where a suspended `load()` call is parked. -/
inductive LoadPc where
  | noLoad
  | loadAwaiting
deriving DecidableEq, Repr

/-- Where a suspended `run()`/`runTests()` call is parked: awaiting
`getConfigStrings`, awaiting `executeCmakeTestProcess`, or (after the
early-return branch of `runTests`) awaiting only the tail of `run()`. -/
inductive RunPc where
  | noRun
  | awaitingConfig (tests : List String)
  | executing (tests : List String)
  | returning
deriving DecidableEq, Repr

structure Adapter where
  state : AdapterState
  /-- `this.currentTestProcess` is set (lines 324-330) and cleared by the
  `finally` (line 364); modelled as a liveness flag. -/
  currentTestProcess : Bool
  loadPc : LoadPc
  runPc : RunPc
  trace : List AdapterEvent
deriving DecidableEq, Repr

/-- `load()` lines 98-104 up to `await this.loadTestSuite()`: guard on
non-idle, set `loading`, fire the load-started event. -/
def callLoad (a : Adapter) : Adapter :=
  if a.state ≠ AdapterState.idle then a
  else { a with state := AdapterState.loading,
                loadPc := LoadPc.loadAwaiting,
                trace := a.trace ++ [AdapterEvent.loadStarted] }

/-- `load()` resumes after `loadTestSuite` settles (lines 106-118): fire the
load-finished event (with suite or error message) and return to `idle`. -/
def resumeLoad (a : Adapter) : Adapter :=
  match a.loadPc with
  | LoadPc.loadAwaiting =>
      { a with loadPc := LoadPc.noLoad, state := AdapterState.idle,
               trace := a.trace ++ [AdapterEvent.loadFinished] }
  | _ => a

/-- `run()` lines 121-130 plus the opening of `runTests` (lines 299-316) up to
the `getConfigStrings` await: guard on non-idle, set `running`, fire the
run-started event, then perform the `state === 'cancelled'` check of lines
300-304 — still inside the same synchronous segment, reading the state field
that this very segment just assigned.  (Both `runTests` call sites, lines 139
and 155, are reached this way; the `runAll` split only changes which suite
events fire.)  If the check passed, `runTests` retires the requested tests
and returns, leaving only the tail of `run()` (lines 161-162) pending. -/
def callRun (tests : List String) (a : Adapter) : Adapter :=
  if a.state ≠ AdapterState.idle then a
  else
    let a1 := { a with state := AdapterState.running,
                       trace := a.trace ++ [AdapterEvent.runStarted tests] }
    if a1.state = AdapterState.cancelled then
      { a1 with trace := a1.trace ++ [AdapterEvent.retired tests],
                runPc := RunPc.returning }
    else
      { a1 with runPc := RunPc.awaitingConfig tests }

/-- `cancel()` lines 177-185: ignore unless `running`; kill the current test
process when one is live (`cancelCmakeTestProcess`); set `cancelled`.  The
process flag itself is cleared later by the `finally` of `runTests`. -/
def callCancel (a : Adapter) : Adapter :=
  if a.state ≠ AdapterState.running then a
  else
    let a1 := if a.currentTestProcess
      then { a with trace := a.trace ++ [AdapterEvent.processKilled] }
      else a
    { a1 with state := AdapterState.cancelled }

/-- `runTests` resumes after `getConfigStrings` (lines 317-330): resolve the
test indexes and schedule the ctest process, then await its execution. -/
def resumeConfig (a : Adapter) : Adapter :=
  match a.runPc with
  | RunPc.awaitingConfig tests =>
      { a with currentTestProcess := true, runPc := RunPc.executing tests }
  | _ => a

/-- The run settles: `executeCmakeTestProcess` resolves or rejects (also on a
killed process), the `finally` clears `currentTestProcess`, the `catch` of
`run()` swallows any error, and lines 161-162 fire the run-finished event and
return to `idle`; the `returning` leg is the tail of `run()` after the
early-return branch of `runTests`. -/
def resumeExec (a : Adapter) : Adapter :=
  match a.runPc with
  | RunPc.executing _ =>
      { a with currentTestProcess := false, runPc := RunPc.noRun,
               state := AdapterState.idle,
               trace := a.trace ++ [AdapterEvent.runFinished] }
  | RunPc.returning =>
      { a with runPc := RunPc.noRun, state := AdapterState.idle,
               trace := a.trace ++ [AdapterEvent.runFinished] }
  | _ => a

/-- External stimuli: the Test Explorer calling a method, or the event loop
resuming a pending await. -/
inductive AdapterAct where
  | load
  | run (tests : List String)
  | cancel
  | resumeLoad
  | resumeConfig
  | resumeExec
deriving DecidableEq, Repr

def adapterStep (a : Adapter) : AdapterAct → Adapter
  | AdapterAct.load => callLoad a
  | AdapterAct.run tests => callRun tests a
  | AdapterAct.cancel => callCancel a
  | AdapterAct.resumeLoad => resumeLoad a
  | AdapterAct.resumeConfig => resumeConfig a
  | AdapterAct.resumeExec => resumeExec a

def initAdapter : Adapter :=
  { state := AdapterState.idle, currentTestProcess := false,
    loadPc := LoadPc.noLoad, runPc := RunPc.noRun, trace := [] }

def execAdapter (acts : List AdapterAct) : Adapter :=
  acts.foldl adapterStep initAdapter

/-- Discriminator for retire notifications in a trace. -/
def isRetired : AdapterEvent → Bool
  | AdapterEvent.retired _ => true
  | _ => false

/-! ## Theorems for claims C3 and C9 -/

/-- Claim C3: `loadCmakeTests` rejects exactly when the working directory is
missing or not a directory, when the runner process cannot be spawned, or when
the captured stdout is not valid JSON (in which case the rejection carries the
message naming the likely cause, a CTest older than 3.14); the exit code never
influences the outcome, so a non-zero exit with valid JSON on stdout still
resolves with the parsed test list. -/
theorem loadCmakeTests_rejects_iff (ctestPath cwd : String) (env : LoadEnv) :
    ((loadCmakeTests ctestPath cwd env).isOk ↔
      (env.statOk ∧ env.isDirectory ∧ env.pid ≠ 0 ∧ env.parsedStdout.isSome))
    ∧ (∀ data : CtestShowOnlyResult, env.parsedStdout = some data →
        env.statOk → env.isDirectory → env.pid ≠ 0 →
        loadCmakeTests ctestPath cwd env = .ok data.tests)
    ∧ (∀ code : Int,
        loadCmakeTests ctestPath cwd { env with exitCode := code } =
          loadCmakeTests ctestPath cwd env)
    ∧ (env.parsedStdout = none → env.statOk → env.isDirectory → env.pid ≠ 0 →
        loadCmakeTests ctestPath cwd env = .error (.parseError parseErrorMessage)) := by
  refine ⟨?_, ?_, ?_, ?_⟩
  · unfold loadCmakeTests
    rcases env with ⟨statOk, isDir, pid, parsed, code⟩
    cases statOk <;> cases isDir <;> rcases parsed with _ | data <;>
      by_cases hpid : pid = 0 <;>
      simp [Except.isOk, Except.toBool, hpid]
  · intro data hparsed hstat hdir hpid
    simp [loadCmakeTests, hparsed, hstat, hdir, hpid]
  · intro code
    rcases env with ⟨statOk, isDir, pid, parsed, code₀⟩
    simp [loadCmakeTests]
  · intro hparsed hstat hdir hpid
    simp [loadCmakeTests, hparsed, hstat, hdir, hpid]

/-- Witness for C3 at a concrete environment: valid JSON and non-zero exit
code 8 still resolve with the parsed test list. -/
theorem loadCmakeTests_rejects_iff_witness :
    loadCmakeTests "ctest" "/b"
        ⟨true, true, 42, some ⟨[⟨"t1", none, [], []⟩]⟩, 8⟩ =
      .ok [⟨"t1", none, [], []⟩] := by
  exact (loadCmakeTests_rejects_iff "ctest" "/b"
      ⟨true, true, 42, some ⟨[⟨"t1", none, [], []⟩]⟩, 8⟩).2.1
    ⟨[⟨"t1", none, [], []⟩]⟩ rfl rfl rfl (by decide)

/-- Claim C9: the resolved parallelism bound is always at least 1; a falsy
(`0`/unset) extension setting falls back to the CMake Tools settings and then
to the host CPU count, while a negative or `1` configured value yields
exactly 1. -/
theorem getParallelJobs_spec (c : ParallelJobsConfig) :
    1 ≤ getParallelJobs c
    ∧ (∀ n : Int, c.explorerParallelJobs = some n → (n < 0 ∨ n = 1) →
        getParallelJobs c = 1)
    ∧ (jsTruthyNum c.explorerParallelJobs = none →
        ∀ m : Int, c.ctestParallelJobs = some m → m ≠ 0 →
          getParallelJobs c = if m < 1 then 1 else m)
    ∧ (jsTruthyNum c.explorerParallelJobs = none →
        jsTruthyNum c.ctestParallelJobs = none →
        ∀ m : Int, c.cmakeParallelJobs = some m → m ≠ 0 →
          getParallelJobs c = if m < 1 then 1 else m)
    ∧ (jsTruthyNum c.explorerParallelJobs = none →
        jsTruthyNum c.ctestParallelJobs = none →
        jsTruthyNum c.cmakeParallelJobs = none →
        getParallelJobs c =
          if (c.cpuCount : Int) < 1 then 1 else (c.cpuCount : Int)) := by
  refine ⟨?_, ?_, ?_, ?_, ?_⟩
  · unfold getParallelJobs
    set p : Int := match jsTruthyNum c.explorerParallelJobs with
      | some n => n
      | none =>
        match jsTruthyNum c.ctestParallelJobs with
        | some n => n
        | none =>
          match jsTruthyNum c.cmakeParallelJobs with
          | some n => n
          | none => (c.cpuCount : Int) with hp
    by_cases h : p < 1
    · simp [h]
    · simp [h]; omega
  · intro n hn hlt
    have hne : n ≠ 0 := by omega
    have h1 : n < 1 ∨ n = 1 := by omega
    simp only [getParallelJobs, hn, jsTruthyNum, if_neg hne]
    rcases h1 with h1 | h1
    · simp [if_pos h1]
    · simp [h1]
  · intro h1 m hm hmne
    simp only [getParallelJobs, h1, hm]
    simp [jsTruthyNum, hmne]
  · intro h1 h2 m hm hmne
    simp only [getParallelJobs, h1, h2, hm]
    simp [jsTruthyNum, hmne]
  · intro h1 h2 h3
    simp only [getParallelJobs, h1, h2, h3]

/-- Witness for C9: configured value `-3` resolves to 1, and an all-unset
configuration on a 4-CPU host resolves to 4. -/
theorem getParallelJobs_spec_witness :
    getParallelJobs ⟨some (-3), none, none, 4⟩ = 1
    ∧ getParallelJobs ⟨none, none, none, 4⟩ = 4 := by
  constructor
  · exact (getParallelJobs_spec ⟨some (-3), none, none, 4⟩).2.1 (-3) rfl
      (Or.inl (by decide))
  · have h := (getParallelJobs_spec ⟨none, none, none, 4⟩).2.2.2.2 rfl rfl rfl
    simpa using h

/-! ## Theorems for claims C1 and C2 (suite builder) -/

theorem collectLeavesList_append (xs ys : List SuiteItem) :
    collectLeavesList (xs ++ ys) = collectLeavesList xs ++ collectLeavesList ys := by
  induction xs with
  | nil => simp [collectLeavesList]
  | cons c cs ih => cases c <;> simp [collectLeavesList, ih]

theorem collectLeavesList_cons (c : SuiteItem) (cs : List SuiteItem) :
    collectLeavesList (c :: cs) = collectLeaves c ++ collectLeavesList cs := by
  cases c <;> simp [collectLeavesList, collectLeaves]

/-- Scanning past a non-matching head: inserting into `c :: cs` when `c` is
not the wanted suite keeps `c` and inserts into `cs`. -/
theorem insertTest_cons_of_neg (delim tid lbl name : String) (rest : List String)
    (currentId : String) (c : SuiteItem) (cs : List SuiteItem)
    (hpc : ¬ isSuiteWithId (currentId ++ name ++ delim ++ SUITE_SUFFIX) c = true) :
    insertTest delim tid lbl (name :: rest) currentId (c :: cs) =
      c :: insertTest delim tid lbl (name :: rest) currentId cs := by
  simp only [insertTest, List.find?_cons_of_neg cs hpc]
  cases hfind : cs.find? (isSuiteWithId (currentId ++ name ++ delim ++ SUITE_SUFFIX)) with
  | none => simp
  | some cSuite =>
    simp only [replaceFirstMatching, if_neg hpc]

/-- The leaf IDs of a forest after inserting one test are, up to permutation,
the old leaf IDs with the new test's ID appended. -/
theorem insertTest_perm (delim tid lbl : String) :
    ∀ (segs : List String) (currentId : String) (children : List SuiteItem),
      (collectLeavesList (insertTest delim tid lbl segs currentId children)).Perm
        (collectLeavesList children ++ [tid]) := by
  intro segs
  induction segs with
  | nil =>
    intro currentId children
    simp [insertTest, collectLeavesList_append, collectLeavesList]
  | cons name rest ih =>
    intro currentId children
    induction children with
    | nil =>
      have h := ih (currentId ++ name ++ delim) []
      simp only [collectLeavesList] at h ⊢
      simpa [insertTest, collectLeavesList] using h
    | cons c cs ihc =>
      rcases c with ⟨sid, slbl, sch, stip⟩ | ⟨tId, tLbl⟩
      · by_cases hpc : sid = currentId ++ name ++ delim ++ SUITE_SUFFIX
        · -- the head is the wanted suite: descend into its children
          subst hpc
          have hmatch : isSuiteWithId (currentId ++ name ++ delim ++ SUITE_SUFFIX)
              (SuiteItem.suite (currentId ++ name ++ delim ++ SUITE_SUFFIX) slbl sch stip)
                = true := by simp [isSuiteWithId]
          simp only [insertTest, List.find?_cons_of_pos cs hmatch, replaceFirstMatching,
            if_pos hmatch, setChildren, childrenOf]
          simp only [collectLeavesList]
          refine ((ih (currentId ++ name ++ delim) sch).append_right (collectLeavesList cs)).trans ?_
          simp only [List.append_assoc]
          exact List.Perm.append_left _ List.perm_append_comm
        · have hneg : ¬ isSuiteWithId (currentId ++ name ++ delim ++ SUITE_SUFFIX)
              (SuiteItem.suite sid slbl sch stip) = true := by simp [isSuiteWithId, hpc]
          rw [insertTest_cons_of_neg delim tid lbl name rest currentId _ cs hneg]
          rw [collectLeavesList_cons, collectLeavesList_cons]
          refine (List.Perm.append_left _ ihc).trans ?_
          simp only [List.append_assoc]
          exact List.Perm.rfl
      · have hneg : ¬ isSuiteWithId (currentId ++ name ++ delim ++ SUITE_SUFFIX)
            (SuiteItem.test tId tLbl) = true := by simp [isSuiteWithId]
        rw [insertTest_cons_of_neg delim tid lbl name rest currentId _ cs hneg]
        rw [collectLeavesList_cons, collectLeavesList_cons]
        refine (List.Perm.append_left _ ihc).trans ?_
        simp only [List.append_assoc]
        exact List.Perm.rfl

theorem collectLeavesList_map_test (names : List String) :
    collectLeavesList (names.map (fun n => SuiteItem.test n n)) = names := by
  induction names with
  | nil => simp [collectLeavesList]
  | cons n ns ih => simp [collectLeavesList, ih]

/-- Claim C1 (counterexample): with delimiter `/` and names
`["a/x", "b", "a/y"]`, tree order groups `a/y` under the suite `a` created
before `b`, so collecting leaf IDs yields `["a/x", "a/y", "b"]`, not the
original list. -/
theorem loadTestSuite_roundTrip_counterexample :
    collectLeaves (loadTestSuite "/" ["a/x", "b", "a/y"]) = ["a/x", "a/y", "b"]
    ∧ collectLeaves (loadTestSuite "/" ["a/x", "b", "a/y"]) ≠ ["a/x", "b", "a/y"] := by
  have htree : loadTestSuite "/" ["a/x", "b", "a/y"] =
      SuiteItem.suite "*" "CMake"
        [SuiteItem.suite "a/*" "a"
          [SuiteItem.test "a/x" "x", SuiteItem.test "a/y" "y"] (some "a"),
         SuiteItem.test "b" "b"] none := rfl
  rw [htree]
  constructor <;> simp [collectLeaves, collectLeavesList]

/-- Claim C1 (amended): building the suite tree from `(N, d)` and collecting
all leaf test IDs in tree order yields a permutation of `N` (each leaf ID is a
full original descriptor name, with multiplicity); the order is exactly `N`
when the delimiter is empty, but with a non-empty delimiter later descriptors
are regrouped under earlier suites, so order is preserved only within each
suite, not globally. -/
theorem loadTestSuite_leaves_perm (delim : String) (names : List String) :
    (collectLeaves (loadTestSuite delim names)).Perm names
    ∧ (delim = "" → collectLeaves (loadTestSuite delim names) = names) := by
  constructor
  · rw [loadTestSuite]
    simp only [collectLeaves, loadTestSuiteChildren]
    by_cases hd : delim = ""
    · simp [if_pos hd, collectLeavesList_map_test]
    · simp only [if_neg hd]
      have key : ∀ (ns : List String) (acc : List SuiteItem),
          (collectLeavesList (ns.foldl
            (fun a n => insertTest delim n (testLabelOf delim n) (nameSegs delim n) "" a)
            acc)).Perm (collectLeavesList acc ++ ns) := by
        intro ns
        induction ns with
        | nil => intro acc; simp
        | cons n ns ihn =>
          intro acc
          simp only [List.foldl_cons]
          refine (ihn _).trans ?_
          refine ((insertTest_perm delim n (testLabelOf delim n) (nameSegs delim n) "" acc).append_right ns).trans ?_
          simp only [List.append_assoc, List.singleton_append]
          exact List.Perm.rfl
      simpa [collectLeavesList] using key names []
  · intro hd
    subst hd
    rw [loadTestSuite]
    simp [collectLeaves, loadTestSuiteChildren, collectLeavesList_map_test]

/-- Witness for the amended C1 at a concrete input: with the empty delimiter
the round-trip is exact. -/
theorem loadTestSuite_leaves_perm_witness :
    (collectLeaves (loadTestSuite "" ["t1", "t2"])).Perm ["t1", "t2"]
    ∧ collectLeaves (loadTestSuite "" ["t1", "t2"]) = ["t1", "t2"] :=
  ⟨(loadTestSuite_leaves_perm "" ["t1", "t2"]).1,
   (loadTestSuite_leaves_perm "" ["t1", "t2"]).2 rfl⟩

theorem collectSuiteIdsList_append (xs ys : List SuiteItem) :
    collectSuiteIdsList (xs ++ ys) = collectSuiteIdsList xs ++ collectSuiteIdsList ys := by
  induction xs with
  | nil => simp [collectSuiteIdsList]
  | cons c cs ih => cases c <;> simp [collectSuiteIdsList, ih]

/-- Every suite ID present after an insertion either was already present or
has the shape `path ++ delimiter ++ SUITE_SUFFIX`. -/
theorem insertTest_suiteIds_shape (delim tid lbl : String) :
    ∀ (segs : List String) (currentId : String) (children : List SuiteItem) (sid : String),
      sid ∈ collectSuiteIdsList (insertTest delim tid lbl segs currentId children) →
      sid ∈ collectSuiteIdsList children ∨ ∃ p, sid = p ++ (delim ++ SUITE_SUFFIX) := by
  intro segs
  induction segs with
  | nil =>
    intro currentId children sid hsid
    rw [insertTest, collectSuiteIdsList_append] at hsid
    simp only [collectSuiteIdsList, List.append_nil] at hsid
    exact Or.inl hsid
  | cons name rest ih =>
    intro currentId children
    induction children with
    | nil =>
      intro sid hsid
      simp only [insertTest, List.find?_nil, List.nil_append] at hsid
      simp only [collectSuiteIdsList, List.append_nil, List.mem_cons] at hsid
      rcases hsid with hsid | hsid
      · refine Or.inr ⟨currentId ++ name, ?_⟩
        rw [hsid, String.append_assoc]
      · rcases ih (currentId ++ name ++ delim) [] sid hsid with h | h
        · simp [collectSuiteIdsList] at h
        · exact Or.inr h
    | cons c cs ihc =>
      intro sid hsid
      rcases c with ⟨sid0, slbl, sch, stip⟩ | ⟨tId, tLbl⟩
      · by_cases hpc : sid0 = currentId ++ name ++ delim ++ SUITE_SUFFIX
        · subst hpc
          have hmatch : isSuiteWithId (currentId ++ name ++ delim ++ SUITE_SUFFIX)
              (SuiteItem.suite (currentId ++ name ++ delim ++ SUITE_SUFFIX) slbl sch stip)
                = true := by simp [isSuiteWithId]
          simp only [insertTest, List.find?_cons_of_pos cs hmatch, replaceFirstMatching,
            if_pos hmatch, setChildren, childrenOf] at hsid
          simp only [collectSuiteIdsList, List.mem_cons, List.mem_append] at hsid ⊢
          rcases hsid with hsid | hsid | hsid
          · refine Or.inr ⟨currentId ++ name, ?_⟩
            rw [hsid, String.append_assoc]
          · rcases ih (currentId ++ name ++ delim) sch sid hsid with h | h
            · exact Or.inl (Or.inr (Or.inl h))
            · exact Or.inr h
          · exact Or.inl (Or.inr (Or.inr hsid))
        · have hneg : ¬ isSuiteWithId (currentId ++ name ++ delim ++ SUITE_SUFFIX)
              (SuiteItem.suite sid0 slbl sch stip) = true := by simp [isSuiteWithId, hpc]
          rw [insertTest_cons_of_neg delim tid lbl name rest currentId _ cs hneg] at hsid
          simp only [collectSuiteIdsList, List.mem_cons, List.mem_append] at hsid ⊢
          rcases hsid with hsid | hsid | hsid
          · exact Or.inl (Or.inl hsid)
          · exact Or.inl (Or.inr (Or.inl hsid))
          · rcases ihc sid hsid with h | h
            · exact Or.inl (Or.inr (Or.inr h))
            · exact Or.inr h
      · have hneg : ¬ isSuiteWithId (currentId ++ name ++ delim ++ SUITE_SUFFIX)
            (SuiteItem.test tId tLbl) = true := by simp [isSuiteWithId]
        rw [insertTest_cons_of_neg delim tid lbl name rest currentId _ cs hneg] at hsid
        simp only [collectSuiteIdsList] at hsid ⊢
        rcases ihc sid hsid with h | h
        · exact Or.inl h
        · exact Or.inr h

/-- All suite IDs produced by the suite builder have the shape
`path ++ delimiter ++ SUITE_SUFFIX`. -/
theorem loadTestSuiteChildren_suiteIds_shape (delim : String) (names : List String)
    (hd : delim ≠ "") :
    ∀ sid ∈ collectSuiteIdsList (loadTestSuiteChildren delim names),
      ∃ p, sid = p ++ (delim ++ SUITE_SUFFIX) := by
  rw [loadTestSuiteChildren, if_neg hd]
  have key : ∀ (ns : List String) (acc : List SuiteItem),
      (∀ sid ∈ collectSuiteIdsList acc, ∃ p, sid = p ++ (delim ++ SUITE_SUFFIX)) →
      ∀ sid ∈ collectSuiteIdsList (ns.foldl
          (fun a n => insertTest delim n (testLabelOf delim n) (nameSegs delim n) "" a) acc),
        ∃ p, sid = p ++ (delim ++ SUITE_SUFFIX) := by
    intro ns
    induction ns with
    | nil => intro acc hacc sid hsid; exact hacc sid hsid
    | cons n ns ihn =>
      intro acc hacc sid hsid
      simp only [List.foldl_cons] at hsid
      refine ihn _ ?_ sid hsid
      intro sid' hsid'
      rcases insertTest_suiteIds_shape delim n (testLabelOf delim n)
          (nameSegs delim n) "" acc sid' hsid' with h | h
      · exact hacc sid' h
      · exact h
  intro sid hsid
  exact key names [] (by simp [collectSuiteIdsList]) sid hsid

/-- Claim C2 (counterexample): with delimiter `/` and the single descriptor
named `a/*`, the builder creates the suite ID `a/*` (path `a/` plus the suffix
`*`), which equals the descriptor's own test ID. -/
theorem loadTestSuite_id_collision_counterexample :
    "a/*" ∈ collectSuiteIdsList (loadTestSuiteChildren "/" ["a/*"])
    ∧ "a/*" ∈ ["a/*"] := by
  have htree : loadTestSuiteChildren "/" ["a/*"] =
      [SuiteItem.suite "a/*" "a" [SuiteItem.test "a/*" "*"] (some "a")] := rfl
  rw [htree]
  constructor
  · simp [collectSuiteIdsList]
  · simp

/-- Claim C2 (amended): every suite ID built with a non-empty delimiter ends
in the delimiter followed by the reserved suffix, so suite IDs never collide
with test IDs as long as no descriptor name itself ends in delimiter-plus-
suffix; the root sentinel `*` is distinct from every test name other than the
name `*` itself. -/
theorem loadTestSuite_id_collision_amended (delim : String) (names : List String)
    (hd : delim ≠ "")
    (hN : ∀ n ∈ names, ¬ ∃ p, n = p ++ (delim ++ SUITE_SUFFIX)) :
    (∀ sid ∈ collectSuiteIdsList (loadTestSuiteChildren delim names),
      ∀ n ∈ names, sid ≠ n)
    ∧ (∀ n ∈ names, n ≠ ROOT_SUITE_ID → ROOT_SUITE_ID ≠ n) := by
  constructor
  · intro sid hsid n hn heq
    rcases loadTestSuiteChildren_suiteIds_shape delim names hd sid hsid with ⟨p, hp⟩
    exact hN n hn ⟨p, heq ▸ hp⟩
  · intro n _ hne h
    exact hne h.symm

/-- Witness for the amended C2 at a concrete input: with delimiter `/` and
names `["g/t1", "u"]` the only suite ID is `g/*`, distinct from both names. -/
theorem loadTestSuite_id_collision_amended_witness :
    (∀ sid ∈ collectSuiteIdsList (loadTestSuiteChildren "/" ["g/t1", "u"]),
      ∀ n ∈ ["g/t1", "u"], sid ≠ n)
    ∧ (∀ n ∈ ["g/t1", "u"], n ≠ ROOT_SUITE_ID → ROOT_SUITE_ID ≠ n) := by
  refine loadTestSuite_id_collision_amended "/" ["g/t1", "u"] (by decide) ?_
  intro n hn
  rcases List.mem_cons.mp hn with h | h
  · subst h
    rintro ⟨p, hp⟩
    have h2 : "g/t1".toList = p.toList ++ ("/" ++ SUITE_SUFFIX).toList := by
      rw [show "g/t1" = p ++ ("/" ++ SUITE_SUFFIX) from hp]
      simp [String.toList]
    have h3 : ['g', '/', 't', '1'] = p.toList ++ ['/', '*'] := by simpa using h2
    have hlast : (['g', '/', 't', '1'] : List Char).getLast? =
        ((p.toList ++ ['/']) ++ ['*']).getLast? := by rw [h3]; simp
    simp [List.getLast?_concat] at hlast
  · simp only [List.mem_singleton] at h
    subst h
    rintro ⟨p, hp⟩
    have h2 : "u".toList = p.toList ++ ("/" ++ SUITE_SUFFIX).toList := by
      rw [show "u" = p ++ ("/" ++ SUITE_SUFFIX) from hp]
      simp [String.toList]
    have h3 : ['u'] = p.toList ++ ['/', '*'] := by simpa using h2
    have := congrArg List.length h3
    simp at this

/-! ## Theorems for claim C10 (test index resolution) -/

/-- `findIdx?` (from start index 0) finds a satisfying element at the
reported position, and nothing before it satisfies the predicate. -/
theorem findIdx?_spec {α : Type} (p : α → Bool) :
    ∀ (l : List α) (i : Nat), l.findIdx? p = some i →
      (∃ x, l[i]? = some x ∧ p x = true) ∧
        (∀ j, j < i → ∀ x, l[j]? = some x → p x = false) := by
  intro l
  induction l with
  | nil => intro i h; simp [List.findIdx?] at h
  | cons a l ih =>
    intro i h
    rw [List.findIdx?_cons, List.findIdx?_succ] at h
    by_cases hpa : p a = true
    · rw [if_pos hpa] at h
      injection h with h
      subst h
      refine ⟨⟨a, by simp, hpa⟩, ?_⟩
      intro j hj
      exact absurd hj (Nat.not_lt_zero j)
    · rw [if_neg hpa] at h
      rcases Option.map_eq_some'.mp h with ⟨i', hi', rfl⟩
      rcases ih i' hi' with ⟨⟨x, hx, hpx⟩, hmin⟩
      refine ⟨⟨x, by simpa using hx, hpx⟩, ?_⟩
      intro j hj y hy
      cases j with
      | zero =>
        simp only [List.getElem?_cons_zero, Option.some.injEq] at hy
        subst hy
        simp only [Bool.not_eq_true] at hpa
        exact hpa
      | succ j' =>
        simp only [List.getElem?_cons_succ] at hy
        exact hmin j' (by omega) y hy

/-- With no suite-shaped ID in the list, the collection loop of
`getTestIndexes` appends each requested ID as a single test. -/
theorem getTestIndexes_foldl_no_suite (tests : List CmakeTestInfo) (delim : String) :
    ∀ (l : List String) (acc : List String),
      (∀ s ∈ l, isSuiteRunId delim s = false) →
      l.foldl
        (fun ts i =>
          if isSuiteRunId delim i then
            ts ++ (tests.map (fun t => t.name)).filter
              (fun t => startsWithStr t (dropSuiteSuffix i))
          else ts ++ [i]) acc = acc ++ l := by
  intro l
  induction l with
  | nil => intro acc _; simp
  | cons a l ih =>
    intro acc h
    rw [List.foldl_cons]
    have ha : isSuiteRunId delim a = false := h a (List.mem_cons_self a l)
    rw [if_neg (by simp [ha])]
    rw [ih (acc ++ [a]) (fun s hs => h s (List.mem_cons_of_mem a hs))]
    simp

/-- Claim C10 (counterexample): when suite grouping is active, a requested ID
that matches a loaded descriptor name but happens to end in
delimiter-plus-suffix is expanded as a suite prefix instead of being mapped to
its own 1-based position: descriptors `a/*`, `a/b` with request `["a/*"]`
produce `[1, 2]`, not position list `[1]`. -/
theorem getTestIndexes_position_counterexample :
    getTestIndexes [⟨"a/*", none, [], []⟩, ⟨"a/b", none, [], []⟩] "/" ["a/*"] = [1, 2]
    ∧ getTestIndexes [⟨"a/*", none, [], []⟩, ⟨"a/b", none, [], []⟩] "/" ["a/*"] ≠
        [jsFindIndexName [⟨"a/*", none, [], []⟩, ⟨"a/b", none, [], []⟩] "a/*"] := by
  decide

/-- Claim C10 (amended): an empty request yields the empty selection (run
everything); when no requested ID ends in delimiter-plus-suffix, each ID maps
to `findIndex + 1` in request order — the 1-based position of the first
matching descriptor, or 0 (kept in the selection, not an error) when no
descriptor matches; IDs ending in delimiter-plus-suffix are instead expanded
to all descriptors sharing the prefix. -/
theorem getTestIndexes_amended (tests : List CmakeTestInfo) (delim : String)
    (ids : List String) :
    (getTestIndexes tests delim [] = [])
    ∧ ((∀ s ∈ ids, isSuiteRunId delim s = false) →
        getTestIndexes tests delim ids = ids.map (jsFindIndexName tests))
    ∧ (∀ s, (∀ t ∈ tests, t.name ≠ s) → jsFindIndexName tests s = 0)
    ∧ (∀ s i, tests.findIdx? (fun t => t.name = s) = some i →
        jsFindIndexName tests s = i + 1) := by
  refine ⟨by simp [getTestIndexes], ?_, ?_, ?_⟩
  · intro h
    cases ids with
    | nil => simp [getTestIndexes]
    | cons a l =>
      simp only [getTestIndexes]
      rw [if_neg (by simp)]
      rw [getTestIndexes_foldl_no_suite tests delim (a :: l) [] h]
      simp
  · intro s h
    have hnone : tests.findIdx? (fun t => t.name = s) = none := by
      rw [List.findIdx?_eq_none_iff]
      intro x hx
      simp [h x hx]
    simp [jsFindIndexName, hnone]
  · intro s i h
    simp [jsFindIndexName, h]

/-- Witness for the amended C10: known `t2` maps to 2, unknown `zz` maps to
0 and stays in the selection. -/
theorem getTestIndexes_amended_witness :
    getTestIndexes [⟨"t1", none, [], []⟩, ⟨"t2", none, [], []⟩] "/" ["t2", "zz"] = [2, 0] := by
  have h := (getTestIndexes_amended [⟨"t1", none, [], []⟩, ⟨"t2", none, [], []⟩]
      "/" ["t2", "zz"]).2.1 (by decide)
  rw [h]
  decide

/-! ## Theorems for claim C7 (per-test output buffering) -/

/-- Folding the event handler accumulates exactly the index-attributed output
lines onto each buffer slot. -/
theorem processEvents_outputs (i : Nat) :
    ∀ (es : List CmakeTestEvent) (st : RunBuffers),
      (es.foldl handleEvent st).outputs i = combineBuf (st.outputs i) (outputLinesFor i es) := by
  intro es
  induction es with
  | nil =>
    intro st
    cases h : st.outputs i <;> simp [outputLinesFor, combineBuf, h]
  | cons e es ihe =>
    intro st
    rw [List.foldl_cons, ihe]
    cases e with
    | start name => simp [handleEvent, outputLinesFor]
    | endTest j name success => simp [handleEvent, outputLinesFor]
    | output j line =>
      by_cases hj : j = i
      · subst hj
        simp only [handleEvent, outputLinesFor, List.filterMap_cons, if_pos rfl]
        rw [show (pushOutput st.outputs j line) j = some ((st.outputs j).getD [] ++ [line])
          from by simp [pushOutput]]
        cases h : st.outputs j with
        | none => simp [combineBuf]
        | some prev => simp [combineBuf]
      · have hij : ¬ i = j := fun hh => hj hh.symm
        simp [handleEvent, outputLinesFor, pushOutput, hj, hij]

/-- Claim C7: when the handler receives an `end` event for index `i`, the
terminal event it fires carries as message the ordered accumulation of all
output lines previously received for index `i`, joined with line breaks, and
no message at all when no output line arrived for `i`.  Buffers are keyed by
the positional index alone: the message depends only on the index-filtered
lines of the preceding stream, not on any event names. -/
theorem runTests_end_message (es : List CmakeTestEvent) (i : Nat) (name : String)
    (success : Bool) :
    (processEvents (es ++ [CmakeTestEvent.endTest i name success])).fired
      = (processEvents es).fired ++
        [TestStateEvent.terminal name success
          (match outputLinesFor i es with
           | [] => none
           | ls => some (String.intercalate "\n" ls))] := by
  simp only [processEvents, List.foldl_append, List.foldl_cons, List.foldl_nil, handleEvent]
  have h := processEvents_outputs i es ⟨fun _ => none, []⟩
  rw [h]
  cases hl : outputLinesFor i es with
  | nil => simp [combineBuf]
  | cons l ls => simp [combineBuf]

/-! ## Theorems for claim C8 (debug configuration merging) -/

theorem lookup_append (l₁ l₂ : List (String × String)) (k : String) :
    (l₁ ++ l₂).lookup k = (l₁.lookup k).or (l₂.lookup k) := by
  induction l₁ with
  | nil => simp
  | cons e l ih =>
    rcases e with ⟨k0, v0⟩
    cases h : k == k0
    · simp [List.lookup_cons, h, ih]
    · simp [List.lookup_cons, h]

theorem lookup_eq_none_of_not_mem_keys (k : String) :
    ∀ l : List (String × String), k ∉ l.map Prod.fst → l.lookup k = none := by
  intro l
  induction l with
  | nil => intro _; rfl
  | cons e l ih =>
    rcases e with ⟨k0, v0⟩
    intro h
    simp only [List.map_cons, List.mem_cons] at h
    push_neg at h
    have hbeq : (k == k0) = false := by simp [h.1]
    simp [List.lookup_cons, hbeq, ih h.2]

theorem lookup_filter_congr (k : String) (p q : String × String → Bool)
    (h : ∀ v, p (k, v) = q (k, v)) :
    ∀ b : List (String × String), (b.filter p).lookup k = (b.filter q).lookup k := by
  intro b
  induction b with
  | nil => rfl
  | cons e b ih =>
    rcases e with ⟨k', v'⟩
    by_cases hk : k = k'
    · subst hk
      rw [List.filter_cons, List.filter_cons, h v']
      cases hq : q (k, v')
      · simpa [hq] using ih
      · simp [hq, List.lookup_cons]
    · have hbeq : (k == k') = false := by simp [hk]
      rw [List.filter_cons, List.filter_cons]
      cases hp : p (k', v') <;> cases hq2 : q (k', v') <;>
        simp [List.lookup_cons, hbeq, ih]

theorem lookup_spreadObj (a b : List (String × String)) (k : String) :
    (spreadObj a b).lookup k = (b.lookup k).or (a.lookup k) := by
  induction a with
  | nil =>
    rw [spreadObj]
    simp only [List.map_nil, List.nil_append]
    have hfilter :
        (b.filter fun e => (List.lookup e.1 ([] : List (String × String))).isNone) = b := by
      apply List.filter_eq_self.mpr
      intro e _
      rfl
    rw [hfilter]
    simp
  | cons e a' ih =>
    rcases e with ⟨k0, v0⟩
    rw [spreadObj]
    simp only [List.map_cons, List.cons_append]
    cases hbeq : k == k0
    · have hstep :
          (((k0, (b.lookup k0).getD v0) ::
            (a'.map (fun e => (e.1, (b.lookup e.1).getD e.2)) ++
              b.filter (fun e => (List.lookup e.1 ((k0, v0) :: a')).isNone)))).lookup k =
          ((a'.map (fun e => (e.1, (b.lookup e.1).getD e.2))).lookup k).or
            ((b.filter (fun e => (List.lookup e.1 ((k0, v0) :: a')).isNone)).lookup k) := by
        simp only [List.lookup_cons, hbeq]
        exact lookup_append _ _ _
      rw [hstep]
      have hfc := lookup_filter_congr k
        (fun (e : String × String) => (List.lookup e.1 ((k0, v0) :: a')).isNone)
        (fun (e : String × String) => (List.lookup e.1 a').isNone)
        (by intro v; simp [List.lookup_cons, hbeq]) b
      rw [hfc]
      have hsp : (spreadObj a' b).lookup k =
          ((a'.map (fun e => (e.1, (b.lookup e.1).getD e.2))).lookup k).or
            ((b.filter (fun e => (List.lookup e.1 a').isNone)).lookup k) := by
        rw [spreadObj]
        exact lookup_append _ _ _
      rw [← hsp, ih]
      simp [List.lookup_cons, hbeq]
    · have hk : k = k0 := by simpa using hbeq
      subst hk
      cases hb : b.lookup k <;> simp [List.lookup_cons, hb]

/-- Replacing a non-matching entry at index `i` by another non-matching entry
does not change the result of `find?`. -/
theorem find?_set_congr {α : Type} (p : α → Bool) :
    ∀ (l : List α) (i : Nat) (x : α),
      (∀ e, l[i]? = some e → p e = false) → p x = false →
      (l.set i x).find? p = l.find? p := by
  intro l
  induction l with
  | nil => intro i x _ _; rfl
  | cons a l ih =>
    intro i x hold hx
    cases i with
    | zero =>
      have ha : p a = false := hold a (by simp)
      simp only [List.set]
      rw [List.find?_cons_of_neg l (by simp [hx]), List.find?_cons_of_neg l (by simp [ha])]
    | succ i' =>
      simp only [List.set]
      cases hpa : p a
      · rw [List.find?_cons_of_neg _ (by simp [hpa]), List.find?_cons_of_neg _ (by simp [hpa])]
        exact ih i' x (fun e he => hold e (by simpa using he)) hx
      · rw [List.find?_cons_of_pos _ hpa, List.find?_cons_of_pos _ hpa]

/-- Setting a matching entry at index `i`, when nothing before `i` matches,
makes `find?` return exactly that entry. -/
theorem find?_set_eq {α : Type} (p : α → Bool) :
    ∀ (l : List α) (i : Nat) (x : α),
      i < l.length → p x = true →
      (∀ j, j < i → ∀ e, l[j]? = some e → p e = false) →
      (l.set i x).find? p = some x := by
  intro l
  induction l with
  | nil => intro i x h _ _; simp at h
  | cons a l ih =>
    intro i x hi hx hbefore
    cases i with
    | zero =>
      simp only [List.set]
      rw [List.find?_cons_of_pos _ hx]
    | succ i' =>
      have ha : p a = false := hbefore 0 (Nat.succ_pos i') a (by simp)
      simp only [List.set]
      rw [List.find?_cons_of_neg _ (by simp [ha])]
      exact ih i' x (by simpa using hi) hx
        (fun j hj e he => hbefore (j + 1) (by omega) e (by simpa using he))

/-- Core of the list-family precedence proof: folding the
`mergeVariablesIntoDebugEnv` step (indexes computed against `env`) over a
result list `r` that is name-aligned with `env` on the `env` region and whose
appended tail avoids the pending variable names. -/
theorem mergeDebug_lookup_aux (env : List DebugEnvEntry) (n : String) :
    ∀ (vars : List (String × String)) (r : List DebugEnvEntry),
      (vars.map Prod.fst).Nodup →
      env.length ≤ r.length →
      (∀ j, j < env.length → ∀ e e₀, r[j]? = some e → env[j]? = some e₀ →
        e.name = e₀.name) →
      (∀ j, env.length ≤ j → ∀ e, r[j]? = some e → e.name ∉ vars.map Prod.fst) →
      lookupDebugEnv n
        (vars.foldl
          (fun result v =>
            match getVariableIndex false v.1 env with
            | none => result ++ [⟨v.1, v.2⟩]
            | some i => result.set i ⟨v.1, v.2⟩) r) =
        (vars.lookup n).or (lookupDebugEnv n r) := by
  intro vars
  induction vars with
  | nil => intro r _ _ _ _; simp
  | cons mv rest ih =>
    rcases mv with ⟨m, w⟩
    intro r hnd hlen halign htail
    simp only [List.map_cons, List.nodup_cons] at hnd
    obtain ⟨hm, hndrest⟩ := hnd
    rw [List.foldl_cons]
    have hidxsimp : getVariableIndex false m env = env.findIdx? (fun e => e.name = m) := by
      simp [getVariableIndex]
    cases hidx : getVariableIndex false m env with
    | none =>
      have henvnone : ∀ e ∈ env, (e.name = m) = False := by
        rw [hidxsimp] at hidx
        have := List.findIdx?_eq_none_iff.mp hidx
        intro e he
        simpa using this e he
      simp only [hidx]
      -- invariants for r ++ [⟨m, w⟩]
      have halign' : ∀ j, j < env.length → ∀ e e₀,
          (r ++ [⟨m, w⟩])[j]? = some e → env[j]? = some e₀ → e.name = e₀.name := by
        intro j hj e e₀ he he₀
        rw [List.getElem?_append_left (lt_of_lt_of_le hj hlen)] at he
        exact halign j hj e e₀ he he₀
      have htail' : ∀ j, env.length ≤ j → ∀ e,
          (r ++ [⟨m, w⟩])[j]? = some e → e.name ∉ rest.map Prod.fst := by
        intro j hj e he
        by_cases hjr : j < r.length
        · rw [List.getElem?_append_left hjr] at he
          have := htail j hj e he
          simp only [List.map_cons, List.mem_cons] at this
          push_neg at this
          exact this.2
        · rw [List.getElem?_append, if_neg hjr] at he
          rcases Nat.lt_or_ge (j - r.length) 1 with hj1 | hj1
          · have : j - r.length = 0 := by omega
            rw [this] at he
            simp only [List.getElem?_cons_zero, Option.some.injEq] at he
            subst he
            exact hm
          · rw [List.getElem?_eq_none (by simpa using hj1)] at he
            cases he
      have key := ih (r ++ [⟨m, w⟩]) hndrest
        (le_trans hlen (by simp)) halign' htail'
      rw [key]
      by_cases hnm : n = m
      · subst hnm
        have hrfind : r.find? (fun e => e.name = n) = none := by
          rw [List.find?_eq_none]
          intro x hx
          obtain ⟨j, hj⟩ := List.mem_iff_getElem?.mp hx
          by_cases hjlt : j < env.length
          · have he₀ := List.getElem?_eq_getElem hjlt
            have hname := halign j hjlt x (env[j]) hj he₀
            have := henvnone (env[j]) (List.getElem_mem hjlt)
            simp only [decide_eq_true_eq]
            rw [hname]
            intro hcon
            rw [hcon] at this
            simp at this
          · have := htail j (le_of_not_lt hjlt) x hj
            simp only [List.map_cons, List.mem_cons] at this
            push_neg at this
            simp only [decide_eq_true_eq]
            exact this.1
        have happ : lookupDebugEnv n (r ++ [⟨n, w⟩]) = some w := by
          rw [lookupDebugEnv, List.find?_append, hrfind]
          simp [List.find?]
        rw [happ, lookup_eq_none_of_not_mem_keys n rest hm]
        simp [List.lookup_cons]
      · have happ : lookupDebugEnv n (r ++ [⟨m, w⟩]) = lookupDebugEnv n r := by
          rw [lookupDebugEnv, lookupDebugEnv, List.find?_append]
          have hone : List.find? (fun (e : DebugEnvEntry) => decide (e.name = n))
              [(⟨m, w⟩ : DebugEnvEntry)] = none := by
            apply List.find?_eq_none.mpr
            intro x hx
            simp only [List.mem_singleton] at hx
            subst hx
            simp [Ne.symm hnm]
          rw [hone, Option.or_none]
        rw [happ]
        have hbeq : (n == m) = false := by simp [hnm]
        simp [List.lookup_cons, hbeq]
    | some i =>
      rw [hidxsimp] at hidx
      obtain ⟨⟨e₀, he₀, hpe₀⟩, hmin⟩ := findIdx?_spec _ env i hidx
      have he₀name : e₀.name = m := by simpa using hpe₀
      have hienv : i < env.length := (List.getElem?_eq_some.mp he₀).1
      have hir : i < r.length := lt_of_lt_of_le hienv hlen
      simp only [hidx]
      -- invariants for r.set i ⟨m, w⟩
      have halign' : ∀ j, j < env.length → ∀ e e₁,
          (r.set i ⟨m, w⟩)[j]? = some e → env[j]? = some e₁ → e.name = e₁.name := by
        intro j hj e e₁ he he₁
        by_cases hji : i = j
        · subst hji
          rw [List.getElem?_set_self hir] at he
          injection he with he
          subst he
          rw [he₀] at he₁
          injection he₁ with he₁
          subst he₁
          exact he₀name.symm
        · rw [List.getElem?_set_ne hji] at he
          exact halign j hj e e₁ he he₁
      have htail' : ∀ j, env.length ≤ j → ∀ e,
          (r.set i ⟨m, w⟩)[j]? = some e → e.name ∉ rest.map Prod.fst := by
        intro j hj e he
        have hji : i ≠ j := by omega
        rw [List.getElem?_set_ne hji] at he
        have := htail j hj e he
        simp only [List.map_cons, List.mem_cons] at this
        push_neg at this
        exact this.2
      have key := ih (r.set i ⟨m, w⟩) hndrest (by rw [List.length_set]; exact hlen)
        halign' htail'
      rw [key]
      by_cases hnm : n = m
      · subst hnm
        have hset : lookupDebugEnv n (r.set i ⟨n, w⟩) = some w := by
          rw [lookupDebugEnv]
          rw [find?_set_eq _ r i ⟨n, w⟩ hir (by simp) ?_]
          · rfl
          · intro j hj e he
            have hjenv : j < env.length := lt_trans hj hienv
            have he₁ := List.getElem?_eq_getElem hjenv
            have hname := halign j hjenv e (env[j]) he he₁
            have := hmin j hj (env[j]) he₁
            simp only [decide_eq_true_eq] at this ⊢
            rw [hname]
            exact this
        rw [hset, lookup_eq_none_of_not_mem_keys n rest hm]
        simp [List.lookup_cons]
      · have hset : lookupDebugEnv n (r.set i ⟨m, w⟩) = lookupDebugEnv n r := by
          rw [lookupDebugEnv, lookupDebugEnv]
          rw [find?_set_congr _ r i ⟨m, w⟩ ?_ (by simp [Ne.symm hnm])]
          intro e he
          have he₁ := List.getElem?_eq_getElem hienv
          have hname := halign i hienv e (env[i]) he he₁
          have hie : env[i] = e₀ := by
            have h2 := he₀
            rw [List.getElem?_eq_getElem hienv] at h2
            injection h2
          have henm : e.name = m := by rw [hname, hie, he₀name]
          simp [henm, Ne.symm hnm]
        rw [hset]
        have hbeq : (n == m) = false := by simp [hnm]
        simp [List.lookup_cons, hbeq]

/-- The list-family merge resolves each name to the merged variable's value
when present (object keys are unique) and to the base environment's value
otherwise. -/
theorem mergeDebug_lookup (env : List DebugEnvEntry) (vars : List (String × String))
    (n : String) (hnd : (vars.map Prod.fst).Nodup) :
    lookupDebugEnv n (mergeVariablesIntoDebugEnv false env vars) =
      (vars.lookup n).or (lookupDebugEnv n env) := by
  rw [mergeVariablesIntoDebugEnv]
  refine mergeDebug_lookup_aux env n vars env hnd (le_refl _) ?_ ?_
  · intro j _ e e₀ he he₀
    rw [he] at he₀
    injection he₀ with he₀
    rw [he₀]
  · intro j hj e he
    rw [List.getElem?_eq_none hj] at he
    cases he

/-- Claim C8: the two merge strategies and the precedence chain.  (1) The
list-based family merges one variable by finding an existing entry by name —
case-insensitively on win32 — and overwriting it in place (same length, same
position) rather than appending a duplicate, appending only when no entry
matches.  (2) The lldb family's merge is an object-spread overlay whose
lookup prefers the test environment, then the extra variables, then the base
environment.  (3) For the list-based family (exact-name platforms), every
variable resolves to the test-specific value when present, else the extra
configured value, else the base configuration's value. -/
theorem debugEnvMerge_spec :
    (∀ (win32 : Bool) (env : List DebugEnvEntry) (n v : String),
      (getVariableIndex win32 n env = none →
        mergeVariablesIntoDebugEnv win32 env [(n, v)] = env ++ [⟨n, v⟩])
      ∧ (∀ i, getVariableIndex win32 n env = some i →
          mergeVariablesIntoDebugEnv win32 env [(n, v)] = env.set i ⟨n, v⟩
          ∧ (env.set i ⟨n, v⟩).length = env.length
          ∧ (∃ e, env[i]? = some e ∧
              (if win32 = true then e.name.toUpper = n.toUpper else e.name = n))
          ∧ (∀ j, j < i → ∀ e, env[j]? = some e →
              ¬ (if win32 = true then e.name.toUpper = n.toUpper else e.name = n))))
    ∧ (∀ (baseEnv extra testEnv : List (String × String)) (k : String),
        (mergeLldbEnv baseEnv extra testEnv).lookup k =
          (testEnv.lookup k).or ((extra.lookup k).or (baseEnv.lookup k)))
    ∧ (∀ (env : List DebugEnvEntry) (extra testEnv : List (String × String)) (n : String),
        (extra.map Prod.fst).Nodup → (testEnv.map Prod.fst).Nodup →
        lookupDebugEnv n (mergeEnvironments false env extra testEnv) =
          (testEnv.lookup n).or ((extra.lookup n).or (lookupDebugEnv n env))) := by
  refine ⟨?_, ?_, ?_⟩
  · intro win32 env n v
    constructor
    · intro h
      simp [mergeVariablesIntoDebugEnv, h]
    · intro i h
      refine ⟨by simp [mergeVariablesIntoDebugEnv, h], by rw [List.length_set], ?_, ?_⟩
      · cases win32
        · simp [getVariableIndex] at h
          obtain ⟨⟨e, he, hpe⟩, _⟩ := findIdx?_spec _ env i h
          exact ⟨e, he, by simpa using hpe⟩
        · simp [getVariableIndex] at h
          obtain ⟨⟨e, he, hpe⟩, _⟩ := findIdx?_spec _ env i h
          exact ⟨e, he, by simpa using hpe⟩
      · cases win32
        · simp [getVariableIndex] at h
          obtain ⟨_, hmin⟩ := findIdx?_spec _ env i h
          intro j hj e he
          have := hmin j hj e he
          simpa using this
        · simp [getVariableIndex] at h
          obtain ⟨_, hmin⟩ := findIdx?_spec _ env i h
          intro j hj e he
          have := hmin j hj e he
          simpa using this
  · intro baseEnv extra testEnv k
    rw [mergeLldbEnv, lookup_spreadObj, lookup_spreadObj]
  · intro env extra testEnv n hnd1 hnd2
    rw [mergeEnvironments, mergeDebug_lookup _ _ _ hnd2, mergeDebug_lookup _ _ _ hnd1]

/-- Witness for C8 at concrete inputs: with base entries `A`, `B`, extra
variables `B`, `C` and test variable `C`, the merged environment resolves
`C` to the test value, `B` to the extra value and `A` to the base value. -/
theorem debugEnvMerge_spec_witness :
    lookupDebugEnv "C" (mergeEnvironments false [⟨"A", "base"⟩, ⟨"B", "base"⟩]
        [("B", "extra"), ("C", "extra")] [("C", "test")]) = some "test"
    ∧ lookupDebugEnv "B" (mergeEnvironments false [⟨"A", "base"⟩, ⟨"B", "base"⟩]
        [("B", "extra"), ("C", "extra")] [("C", "test")]) = some "extra"
    ∧ lookupDebugEnv "A" (mergeEnvironments false [⟨"A", "base"⟩, ⟨"B", "base"⟩]
        [("B", "extra"), ("C", "extra")] [("C", "test")]) = some "base" := by
  refine ⟨?_, ?_, ?_⟩
  · rw [debugEnvMerge_spec.2.2 [⟨"A", "base"⟩, ⟨"B", "base"⟩]
      [("B", "extra"), ("C", "extra")] [("C", "test")] "C" (by decide) (by decide)]
    decide
  · rw [debugEnvMerge_spec.2.2 [⟨"A", "base"⟩, ⟨"B", "base"⟩]
      [("B", "extra"), ("C", "extra")] [("C", "test")] "B" (by decide) (by decide)]
    decide
  · rw [debugEnvMerge_spec.2.2 [⟨"A", "base"⟩, ⟨"B", "base"⟩]
      [("B", "extra"), ("C", "extra")] [("C", "test")] "A" (by decide) (by decide)]
    decide

/-! ## Theorems for claim C6 (configuration substitution) -/

theorem splitFirst_sound (key : List Char) :
    ∀ (s p q : List Char), splitFirst key s = some (p, q) → s = p ++ key ++ q := by
  intro s
  induction s with
  | nil =>
    intro p q h
    rw [splitFirst] at h
    by_cases hk : key.isEmpty
    · rw [if_pos hk] at h
      injection h with h
      injection h with h1 h2
      subst h1; subst h2
      simp [List.isEmpty_iff.mp hk]
    · rw [if_neg hk] at h
      cases h
  | cons c cs ih =>
    intro p q h
    rw [splitFirst] at h
    by_cases hpre : key.isPrefixOf (c :: cs) = true
    · rw [if_pos hpre] at h
      injection h with h
      injection h with h1 h2
      subst h1; subst h2
      obtain ⟨t, ht⟩ := List.isPrefixOf_iff_prefix.mp hpre
      rw [← ht]
      simp [← ht, List.drop_left]
    · rw [if_neg hpre] at h
      cases hrec : splitFirst key cs with
      | none => rw [hrec] at h; cases h
      | some pq =>
        rcases pq with ⟨p', q'⟩
        rw [hrec] at h
        injection h with h
        injection h with h1 h2
        subst h1; subst h2
        have := ih p' q' hrec
        simp [this]

theorem replaceFirst_of_splitFirst (key value s p q : List Char)
    (h : splitFirst key s = some (p, q)) :
    replaceFirst key value s = p ++ value ++ q := by
  rw [replaceFirst, h]

/-- Skipping one leading character that cannot start an occurrence. -/
theorem splitFirst_cons_of_neg (key : List Char) (c : Char) (cs : List Char)
    (h : key.isPrefixOf (c :: cs) = false) :
    splitFirst key (c :: cs) = (splitFirst key cs).map (fun pq => (c :: pq.1, pq.2)) := by
  rw [splitFirst, if_neg (by simp [h])]
  cases hrec : splitFirst key cs with
  | none => rfl
  | some pq => rcases pq with ⟨p, q⟩; rfl

/-- A dollar-keyed placeholder cannot occur inside a dollar-free string. -/
theorem splitFirst_eq_none_of_no_dollar (kt : List Char) :
    ∀ s : List Char, '$' ∉ s → splitFirst ('$' :: kt) s = none := by
  intro s
  induction s with
  | nil => intro _; rfl
  | cons c cs ih =>
    intro hs
    simp only [List.mem_cons] at hs
    push_neg at hs
    have hc : ('$' == c) = false := by simp [hs.1]
    rw [splitFirst_cons_of_neg _ c cs (by simp [List.isPrefixOf, hc])]
    rw [ih hs.2]
    rfl

/-- The leftmost occurrence search walks over a dollar-free prefix. -/
theorem splitFirst_append_of_no_dollar (kt : List Char) :
    ∀ (v s : List Char), '$' ∉ v →
      splitFirst ('$' :: kt) (v ++ s) =
        (splitFirst ('$' :: kt) s).map (fun pq => (v ++ pq.1, pq.2)) := by
  intro v
  induction v with
  | nil =>
    intro s _
    cases h : splitFirst ('$' :: kt) s with
    | none => simp [h]
    | some pq => rcases pq with ⟨p, q⟩; simp [h]
  | cons c v' ih =>
    intro s hv
    simp only [List.mem_cons] at hv
    push_neg at hv
    have hc : ('$' == c) = false := by simp [hv.1]
    rw [List.cons_append, splitFirst_cons_of_neg _ c (v' ++ s) (by simp [List.isPrefixOf, hc])]
    rw [ih s hv.2]
    cases h : splitFirst ('$' :: kt) s with
    | none => rfl
    | some pq => rcases pq with ⟨p, q⟩; simp

/-- The loop finds the key itself at the head of the string. -/
theorem splitFirst_self_append (key rest : List Char) (hk : key ≠ []) :
    splitFirst key (key ++ rest) = some ([], rest) := by
  cases key with
  | nil => exact absurd rfl hk
  | cons a kt =>
    rw [List.cons_append, splitFirst,
      if_pos (List.isPrefixOf_iff_prefix.mpr ⟨rest, by simp⟩)]
    rw [show ((a :: kt).length) = kt.length + 1 from by simp]
    simp only [List.drop_succ_cons]
    rw [List.drop_left]

theorem occursIn_isSome (key s : List Char) :
    occursIn key s = (splitFirst key s).isSome := rfl

/-- Each iteration of the replacement loop removes at least one dollar when
the key contains one and the value none. -/
theorem replaceFirst_count_lt (key value s p q : List Char)
    (h : splitFirst key s = some (p, q)) (hk : '$' ∈ key) (hv : '$' ∉ value) :
    (p ++ value ++ q).count '$' < s.count '$' := by
  have hs := splitFirst_sound key s p q h
  rw [hs]
  simp only [List.count_append]
  have h1 : value.count '$' = 0 := List.count_eq_zero.mpr hv
  have h2 : 0 < key.count '$' := List.count_pos_iff.mpr hk
  omega

/-- With enough fuel, the loop runs until no occurrence of the key remains. -/
theorem replaceLoopFuel_eliminates (key value : List Char) (hk : '$' ∈ key)
    (hv : '$' ∉ value) :
    ∀ (fuel : Nat) (s : List Char), s.count '$' < fuel →
      occursIn key (replaceLoopFuel fuel s key value) = false := by
  intro fuel
  induction fuel with
  | zero => intro s h; omega
  | succ n ih =>
    intro s hs
    rw [replaceLoopFuel]
    cases hocc : occursIn key s with
    | false =>
      rw [if_neg (by simp)]
      exact hocc
    | true =>
      rw [if_pos rfl]
      rw [occursIn_isSome] at hocc
      cases hsplit : splitFirst key s with
      | none => rw [hsplit] at hocc; cases hocc
      | some pq =>
        rcases pq with ⟨p, q⟩
        rw [replaceFirst_of_splitFirst key value s p q hsplit]
        have := replaceFirst_count_lt key value s p q hsplit hk hv
        exact ih (p ++ value ++ q) (by omega)

theorem replaceLoopFuel_succ (n : Nat) (s key value : List Char) :
    replaceLoopFuel (n + 1) s key value =
      if occursIn key s then replaceLoopFuel n (replaceFirst key value s) key value
      else s := rfl

/-- The loop exits as soon as no occurrence remains, whatever fuel is left. -/
theorem replaceLoopFuel_no_occur (fuel : Nat) (s key value : List Char)
    (h : splitFirst key s = none) :
    replaceLoopFuel fuel s key value = s := by
  cases fuel with
  | zero => rfl
  | succ n =>
    rw [replaceLoopFuel_succ, if_neg (by rw [occursIn_isSome, h]; simp)]

/-- Claim C6: (1) processing one map entry replaces occurrences of the key,
repeating until no occurrence of that key remains (for dollar-marked
placeholder keys and dollar-free values, the regime the spec's no-nesting
disclaimer describes); (2) resolving the spec's example string against the
two standard placeholders replaces both, with a result independent of the
declaration order of the keys in the map. -/
theorem substituteString_spec :
    (∀ (s key value : List Char), '$' ∈ key → '$' ∉ value →
      occursIn key (substituteVar s key value) = false)
    ∧ (∀ v1 v2 : String, '$' ∉ v1.toList → '$' ∉ v2.toList →
        substituteString "$\x7bworkspaceFolder\x7d/$\x7benv:HOME\x7d/x"
            [("$\x7bworkspaceFolder\x7d", v1), ("$\x7benv:HOME\x7d", v2)] =
          v1 ++ "/" ++ v2 ++ "/x"
        ∧ substituteString "$\x7bworkspaceFolder\x7d/$\x7benv:HOME\x7d/x"
            [("$\x7benv:HOME\x7d", v2), ("$\x7bworkspaceFolder\x7d", v1)] =
          v1 ++ "/" ++ v2 ++ "/x") := by
  constructor
  · intro s key value hk hv
    exact replaceLoopFuel_eliminates key value hk hv (s.count '$' + 1) s (by omega)
  · intro v1 v2 hv1 hv2
    have hk1d : "$\x7bworkspaceFolder\x7d".toList = '$' :: "\x7bworkspaceFolder\x7d".toList := by decide
    have hk2d : "$\x7benv:HOME\x7d".toList = '$' :: "\x7benv:HOME\x7d".toList := by decide
    have hrhs : v1 ++ "/" ++ v2 ++ "/x" =
        String.mk (v1.toList ++ ('/' :: (v2.toList ++ "/x".toList))) := by
      apply String.ext
      simp [String.data_append, String.toList,
        show ("/" : String).data = ['/'] from by decide]
    constructor
    · -- order [workspaceFolder, env:HOME]
      have hstep1 : substituteVar ("$\x7bworkspaceFolder\x7d/$\x7benv:HOME\x7d/x".toList)
          ("$\x7bworkspaceFolder\x7d".toList) v1.toList =
            v1.toList ++ "/$\x7benv:HOME\x7d/x".toList := by
        have hsp : splitFirst ("$\x7bworkspaceFolder\x7d".toList)
            ("$\x7bworkspaceFolder\x7d/$\x7benv:HOME\x7d/x".toList) =
              some ([], "/$\x7benv:HOME\x7d/x".toList) := by decide
        rw [substituteVar, replaceLoopFuel_succ,
          if_pos (by rw [occursIn_isSome, hsp]; rfl),
          replaceFirst_of_splitFirst _ _ _ _ _ hsp]
        simp only [List.nil_append]
        apply replaceLoopFuel_no_occur
        rw [hk1d, splitFirst_append_of_no_dollar _ v1.toList _ hv1,
          show splitFirst ('$' :: "\x7bworkspaceFolder\x7d".toList) ("/$\x7benv:HOME\x7d/x".toList)
            = none from by decide]
        rfl
      have hstep2 : substituteVar (v1.toList ++ "/$\x7benv:HOME\x7d/x".toList)
          ("$\x7benv:HOME\x7d".toList) v2.toList =
            v1.toList ++ ['/'] ++ v2.toList ++ "/x".toList := by
        have hsp : splitFirst ("$\x7benv:HOME\x7d".toList) (v1.toList ++ "/$\x7benv:HOME\x7d/x".toList)
            = some (v1.toList ++ ['/'], "/x".toList) := by
          rw [hk2d, splitFirst_append_of_no_dollar _ v1.toList _ hv1,
            show splitFirst ('$' :: "\x7benv:HOME\x7d".toList) ("/$\x7benv:HOME\x7d/x".toList)
              = some (['/'], "/x".toList) from by decide]
          rfl
        rw [substituteVar, replaceLoopFuel_succ,
          if_pos (by rw [occursIn_isSome, hsp]; rfl),
          replaceFirst_of_splitFirst _ _ _ _ _ hsp]
        apply replaceLoopFuel_no_occur
        rw [List.append_assoc, List.append_assoc, List.singleton_append]
        rw [hk2d, splitFirst_append_of_no_dollar _ v1.toList _ hv1]
        rw [splitFirst_cons_of_neg _ '/' _ (by
          simp [List.isPrefixOf, show (('$' : Char) == '/') = false from by decide])]
        rw [splitFirst_append_of_no_dollar _ v2.toList _ hv2,
          show splitFirst ('$' :: "\x7benv:HOME\x7d".toList) ("/x".toList) = none from by decide]
        rfl
      rw [substituteString]
      simp only [List.foldl_cons, List.foldl_nil]
      rw [hstep1, hstep2, hrhs]
      apply congrArg String.mk
      simp [List.append_assoc]
    · -- order [env:HOME, workspaceFolder]
      have hstep1 : substituteVar ("$\x7bworkspaceFolder\x7d/$\x7benv:HOME\x7d/x".toList)
          ("$\x7benv:HOME\x7d".toList) v2.toList =
            "$\x7bworkspaceFolder\x7d/".toList ++ v2.toList ++ "/x".toList := by
        have hsp : splitFirst ("$\x7benv:HOME\x7d".toList)
            ("$\x7bworkspaceFolder\x7d/$\x7benv:HOME\x7d/x".toList) =
              some ("$\x7bworkspaceFolder\x7d/".toList, "/x".toList) := by decide
        rw [substituteVar, replaceLoopFuel_succ,
          if_pos (by rw [occursIn_isSome, hsp]; rfl),
          replaceFirst_of_splitFirst _ _ _ _ _ hsp]
        apply replaceLoopFuel_no_occur
        rw [List.append_assoc]
        have hmismatch : List.isPrefixOf ("$\x7benv:HOME\x7d".toList)
            ('$' :: ('{' :: 'w' :: ("orkspaceFolder\x7d/".toList ++
              (v2.toList ++ "/x".toList)))) = false := by
          rw [show "$\x7benv:HOME\x7d".toList = '$' :: '{' :: 'e' :: "nv:HOME\x7d".toList from by decide]
          simp [List.isPrefixOf, show (('e' : Char) == 'w') = false from by decide]
        rw [show "$\x7bworkspaceFolder\x7d/".toList =
            '$' :: '{' :: 'w' :: "orkspaceFolder\x7d/".toList from by decide]
        simp only [List.cons_append]
        rw [splitFirst_cons_of_neg _ '$' _ (by
          simpa only [List.cons_append] using hmismatch)]
        rw [hk2d,
          show ('{' :: 'w' :: ("orkspaceFolder\x7d/".toList ++ (v2.toList ++ "/x".toList)))
            = ('{' :: 'w' :: "orkspaceFolder\x7d/".toList) ++ (v2.toList ++ "/x".toList)
            from by simp,
          splitFirst_append_of_no_dollar _ ('{' :: 'w' :: "orkspaceFolder\x7d/".toList) _
            (by decide),
          splitFirst_append_of_no_dollar _ v2.toList _ hv2,
          show splitFirst ('$' :: "\x7benv:HOME\x7d".toList) ("/x".toList) = none from by decide]
        rfl
      have hstep2 : substituteVar
          ("$\x7bworkspaceFolder\x7d/".toList ++ v2.toList ++ "/x".toList)
          ("$\x7bworkspaceFolder\x7d".toList) v1.toList =
            v1.toList ++ ('/' :: (v2.toList ++ "/x".toList)) := by
        have hsp : splitFirst ("$\x7bworkspaceFolder\x7d".toList)
            ("$\x7bworkspaceFolder\x7d/".toList ++ v2.toList ++ "/x".toList) =
              some ([], '/' :: (v2.toList ++ "/x".toList)) := by
          rw [List.append_assoc]
          rw [show "$\x7bworkspaceFolder\x7d/".toList =
              "$\x7bworkspaceFolder\x7d".toList ++ ['/'] from by decide,
            List.append_assoc]
          rw [show ['/'] ++ (v2.toList ++ "/x".toList)
              = '/' :: (v2.toList ++ "/x".toList) from rfl]
          exact splitFirst_self_append _ _ (by decide)
        rw [substituteVar, replaceLoopFuel_succ,
          if_pos (by rw [occursIn_isSome, hsp]; rfl),
          replaceFirst_of_splitFirst _ _ _ _ _ hsp]
        simp only [List.nil_append]
        apply replaceLoopFuel_no_occur
        rw [hk1d, splitFirst_append_of_no_dollar _ v1.toList _ hv1]
        rw [splitFirst_cons_of_neg _ '/' _ (by
          simp [List.isPrefixOf, show (('$' : Char) == '/') = false from by decide])]
        rw [splitFirst_append_of_no_dollar _ v2.toList _ hv2,
          show splitFirst ('$' :: "\x7bworkspaceFolder\x7d".toList) ("/x".toList) = none
            from by decide]
        rfl
      rw [substituteString]
      simp only [List.foldl_cons, List.foldl_nil]
      rw [hstep1, hstep2, hrhs]

/-- Witness for C6: one concrete elimination run, and the spec's example string
resolved with workspaceFolder = "/root" and env:HOME = "me". -/
theorem substituteString_spec_witness :
    occursIn ("$\x7benv:HOME\x7d".toList)
        (substituteVar ("a/$\x7benv:HOME\x7d/b".toList) ("$\x7benv:HOME\x7d".toList)
          ("home".toList)) = false
    ∧ substituteString "$\x7bworkspaceFolder\x7d/$\x7benv:HOME\x7d/x"
        [("$\x7benv:HOME\x7d", "me"), ("$\x7bworkspaceFolder\x7d", "/root")] = "/root/me/x" := by
  constructor
  · exact substituteString_spec.1 _ _ _ (by decide) (by decide)
  · rw [(substituteString_spec.2 "/root" "me" (by decide) (by decide)).2]
    decide

/-! ## Theorems for claims C4 and C5 (lifecycle state machine) -/

/-- No lifecycle step ever adds a retire notification to the trace: the only
emitting site is the `state === 'cancelled'` branch of `callRun`, whose
condition reads the field the same synchronous segment just set to
`running`. -/
theorem adapterStep_retired_count (a : Adapter) (act : AdapterAct) :
    ((adapterStep a act).trace).countP isRetired = a.trace.countP isRetired := by
  cases act with
  | load =>
    simp only [adapterStep, callLoad]
    split
    · rfl
    · simp [List.countP_append, isRetired]
  | run tests =>
    simp only [adapterStep, callRun]
    split
    · rfl
    · simp [List.countP_append, isRetired]
  | cancel =>
    simp only [adapterStep, callCancel]
    split
    · rfl
    · cases hp : a.currentTestProcess <;>
        simp [hp, List.countP_append, isRetired]
  | resumeLoad =>
    simp only [adapterStep]
    cases hl : a.loadPc <;>
      simp [resumeLoad, hl, List.countP_append, isRetired]
  | resumeConfig =>
    simp only [adapterStep]
    cases hr : a.runPc <;> simp [resumeConfig, hr]
  | resumeExec =>
    simp only [adapterStep]
    cases hr : a.runPc <;>
      simp [resumeExec, hr, List.countP_append, isRetired]

/-- Claim C4 counterexample: cancelling while the adapter is `running` with a
live test process kills the process and the run still settles, but the trace
carries no retire notification at all — the `cancelled` checkpoint of
`runTests` runs in the same synchronous segment as the admission that just
set the state to `running`, so the retire branch never fires and the
not-yet-started tests are never marked stale. -/
theorem cancel_retire_counterexample :
    (execAdapter [AdapterAct.run ["t1", "t2"], AdapterAct.resumeConfig]).state
        = AdapterState.running
    ∧ (execAdapter [AdapterAct.run ["t1", "t2"],
        AdapterAct.resumeConfig]).currentTestProcess = true
    ∧ (execAdapter [AdapterAct.run ["t1", "t2"], AdapterAct.resumeConfig,
        AdapterAct.cancel, AdapterAct.resumeExec]).trace
        = [AdapterEvent.runStarted ["t1", "t2"], AdapterEvent.processKilled,
           AdapterEvent.runFinished] := by decide

/-- Claim C4 (amended): cancelling while `running` sends the termination call
to the live test process (and only then) and moves the state to `cancelled`,
exactly as claimed; but the retire half of the claim fails — across every
sequence of lifecycle stimuli the trace contains no retire notification,
because the only `cancelled` checkpoint in `runTests` is executed
synchronously with the admission of `run()` and can never observe a
cancellation. -/
theorem cancel_behavior_amended :
    (∀ a : Adapter, a.state = AdapterState.running →
      (callCancel a).state = AdapterState.cancelled
      ∧ (callCancel a).trace = a.trace ++
          (if a.currentTestProcess then [AdapterEvent.processKilled] else []))
    ∧ (∀ acts : List AdapterAct,
        ((execAdapter acts).trace).countP isRetired = 0) := by
  constructor
  · intro a h
    refine ⟨?_, ?_⟩
    · simp [callCancel, h]
    · cases hp : a.currentTestProcess <;> simp [callCancel, h, hp]
  · intro acts
    have key : ∀ (l : List AdapterAct) (a : Adapter),
        ((l.foldl adapterStep a).trace).countP isRetired
          = a.trace.countP isRetired := by
      intro l
      induction l with
      | nil => intro a; rfl
      | cons x xs ih =>
        intro a
        rw [List.foldl_cons, ih, adapterStep_retired_count]
    rw [execAdapter, key]
    rfl

/-- Witness for C4 (amended) at a concrete run admitted from the initial
state, config resolved, process live. -/
theorem cancel_behavior_amended_witness :
    ((execAdapter [AdapterAct.run ["t"], AdapterAct.resumeConfig]).state
        = AdapterState.running)
    ∧ ((callCancel (execAdapter [AdapterAct.run ["t"],
          AdapterAct.resumeConfig])).state = AdapterState.cancelled
      ∧ (callCancel (execAdapter [AdapterAct.run ["t"],
          AdapterAct.resumeConfig])).trace
        = (execAdapter [AdapterAct.run ["t"], AdapterAct.resumeConfig]).trace ++
          (if (execAdapter [AdapterAct.run ["t"],
              AdapterAct.resumeConfig]).currentTestProcess
            then [AdapterEvent.processKilled] else []))
    ∧ ((execAdapter [AdapterAct.run ["t"], AdapterAct.resumeConfig,
        AdapterAct.cancel]).trace).countP isRetired = 0 :=
  ⟨by decide,
   cancel_behavior_amended.1 _ (by decide),
   cancel_behavior_amended.2
     [AdapterAct.run ["t"], AdapterAct.resumeConfig, AdapterAct.cancel]⟩

/-- Claim C5: `load()` and `run()` leave the adapter entirely unchanged (no
state change, no event) whenever the state is not `idle`; `cancel()` is a
no-op whenever the state is not `running`; and a `run()` admitted from `idle`
settles back to `idle` whether it runs to completion, is cancelled while
executing, or is cancelled while still resolving its configuration. -/
theorem lifecycle_guards :
    (∀ (a : Adapter) (tests : List String), a.state ≠ AdapterState.idle →
      callLoad a = a ∧ callRun tests a = a)
    ∧ (∀ a : Adapter, a.state ≠ AdapterState.running → callCancel a = a)
    ∧ (∀ (a : Adapter) (tests : List String), a.state = AdapterState.idle →
        (List.foldl adapterStep a
          [AdapterAct.run tests, AdapterAct.resumeConfig,
           AdapterAct.resumeExec]).state = AdapterState.idle
        ∧ (List.foldl adapterStep a
          [AdapterAct.run tests, AdapterAct.resumeConfig, AdapterAct.cancel,
           AdapterAct.resumeExec]).state = AdapterState.idle
        ∧ (List.foldl adapterStep a
          [AdapterAct.run tests, AdapterAct.cancel, AdapterAct.resumeConfig,
           AdapterAct.resumeExec]).state = AdapterState.idle) := by
  refine ⟨?_, ?_, ?_⟩
  · intro a tests h
    obtain ⟨st, p, lpc, rpc, tr⟩ := a
    cases st with
    | idle => exact absurd rfl h
    | loading => exact ⟨rfl, rfl⟩
    | running => exact ⟨rfl, rfl⟩
    | cancelled => exact ⟨rfl, rfl⟩
  · intro a h
    obtain ⟨st, p, lpc, rpc, tr⟩ := a
    cases st with
    | running => exact absurd rfl h
    | idle => rfl
    | loading => rfl
    | cancelled => rfl
  · intro a tests h
    obtain ⟨st, p, lpc, rpc, tr⟩ := a
    cases st with
    | idle => exact ⟨rfl, rfl, by cases p <;> rfl⟩
    | loading => exact nomatch h
    | running => exact nomatch h
    | cancelled => exact nomatch h

/-- Witness for C5: guard no-ops on a loading adapter and on the initial
(idle, hence non-running) adapter, and the three settling schedules from the
initial adapter. -/
theorem lifecycle_guards_witness :
    (callLoad ⟨AdapterState.loading, false, LoadPc.noLoad, RunPc.noRun, []⟩
        = ⟨AdapterState.loading, false, LoadPc.noLoad, RunPc.noRun, []⟩
      ∧ callRun ["t"] ⟨AdapterState.loading, false, LoadPc.noLoad, RunPc.noRun, []⟩
        = ⟨AdapterState.loading, false, LoadPc.noLoad, RunPc.noRun, []⟩)
    ∧ callCancel initAdapter = initAdapter
    ∧ ((List.foldl adapterStep initAdapter
          [AdapterAct.run ["t"], AdapterAct.resumeConfig,
           AdapterAct.resumeExec]).state = AdapterState.idle
      ∧ (List.foldl adapterStep initAdapter
          [AdapterAct.run ["t"], AdapterAct.resumeConfig, AdapterAct.cancel,
           AdapterAct.resumeExec]).state = AdapterState.idle
      ∧ (List.foldl adapterStep initAdapter
          [AdapterAct.run ["t"], AdapterAct.cancel, AdapterAct.resumeConfig,
           AdapterAct.resumeExec]).state = AdapterState.idle) :=
  ⟨lifecycle_guards.1 ⟨AdapterState.loading, false, LoadPc.noLoad, RunPc.noRun, []⟩
      ["t"] (by decide),
   lifecycle_guards.2.1 initAdapter (by decide),
   lifecycle_guards.2.2 initAdapter ["t"] (by decide)⟩

end CmakeTestExplorer
